import Mathlib

/-!
# Verification of the session-memory / query-understanding core

Shallow embedding of the context-window manager of the
`session_memory_and_query_understanding` repository:

* `SessionMemoryManager` (src/core/memory/session_memory.py): message log,
  token budgeting, compaction (`summarize_conversation`) and its retention
  policy, the fallback summary on summarizer failure.
* `build_final_context` (src/core/chatbot/query_understanding.py): the
  deterministic context assembler.
* `process_user_message` and `load_conversation_log`
  (src/core/chatbot/chat_assistant.py): the per-turn pipeline and the
  tolerant JSONL transcript scanner.
* `log_message` (src/utils/conversation_logger.py): the JSONL encoder.

External collaborators (the LLM client, `tiktoken`, the clock, disk I/O)
are modelled as explicit parameters: every LLM call outcome is a value of
an oracle type, every `datetime.now()` is a string argument, and token
counting is modelled in the documented 4-characters-per-token fallback
mode (`use_tokenizer = False`); the `tiktoken` branch is an external
library call.  Fallible Python code (statements that can raise) is
modelled with `Except`/`Option`.
-/

/-! ## Data model and operations (shallow embedding of the source) -/

/-- Python `a or b` for an optional string: `None` and `""` are falsy. -/
def pyOrStr (a : Option String) (b : String) : String :=
  match a with
  | none => b
  | some s => if s = "" then b else s

/-- Python suffix slice `xs[-n:]`.  Note the quirk: `xs[-0:]` is `xs[0:]`,
the whole list, so a window of `0` selects everything. -/
def takeLastPy {α : Type} (n : Nat) (xs : List α) : List α :=
  if n = 0 then xs else xs.drop (xs.length - n)

/-- A conversation message as stored in
`SessionMemoryManager.conversation_history` (a dict with keys `role`,
`content`, `timestamp`).  `timestamp` is optional because raw caller- or
parser-supplied dicts may lack it; `add_message` always stores one. -/
structure Message where
  role : String
  content : String
  timestamp : Option String
deriving Repr, DecidableEq

/-- `UserContext` (src/core/schema/core_schema.py). -/
structure UserContext where
  preferences : List String
  constraints : List String
  goals : List String
deriving Repr, DecidableEq

/-- The `scope` field of a `SessionMemory`: the inclusive message-index
range that was summarized.  The JSON keys are `from` and `to` (Lean
keywords, hence `fromIdx`/`toIdx`). -/
structure Scope where
  fromIdx : Nat
  toIdx : Nat
deriving Repr, DecidableEq

/-- `SessionMemory` (src/core/schema/core_schema.py): the long-term memory
record produced by a compaction.  `memory_id`, `conversation_state` and
`scope` are required pydantic fields; `created_at` has a default factory,
so a validated instance always carries all of them. -/
structure SessionMemory where
  memory_id : String
  created_at : String
  conversation_state : String
  user_context : Option UserContext
  shared_context : List String
  open_threads : List String
  scope : Scope
deriving Repr, DecidableEq

/-- State of `SessionMemoryManager` (src/core/memory/session_memory.py).
`use_tokenizer` is modelled as `False` (the deterministic documented
fallback); `memory_storage_path` is disk-only and omitted. -/
structure SessionMemoryManager where
  token_threshold : Nat
  recent_messages_window : Option Nat
  keep_recent_after_summary : Nat
  current_summary : Option SessionMemory
  conversation_history : List Message
deriving Repr, DecidableEq

/-- `add_message`: append a message; a missing (or empty, by Python
truthiness) timestamp defaults to the current time `now`. -/
def add_message (m : SessionMemoryManager) (role content : String)
    (timestamp : Option String) (now : String) : SessionMemoryManager :=
  { m with conversation_history :=
      m.conversation_history ++ [⟨role, content, some (pyOrStr timestamp now)⟩] }

/-- The `"role: content"` line used for token counting. -/
def roleContentLine (msg : Message) : String :=
  msg.role ++ ": " ++ msg.content

/-- `get_context_size` in fallback counting mode: join `"role: content"`
lines with newlines and divide the character count by 4 (integer
division); `0` for an empty selection.  `messages = none` selects the
configured recent window (Python slice `[-w:]`), else the whole log. -/
def get_context_size (m : SessionMemoryManager)
    (messages : Option (List Message)) : Nat :=
  let msgs : List Message :=
    match messages with
    | some ms => ms
    | none =>
      match m.recent_messages_window with
      | some w => takeLastPy w m.conversation_history
      | none => m.conversation_history
  if msgs = [] then 0
  else (String.intercalate "\n" (msgs.map roleContentLine)).length / 4

/-- `should_summarize`: true iff the recent window's token size reaches
the threshold. -/
def should_summarize (m : SessionMemoryManager) : Bool :=
  m.token_threshold ≤ get_context_size m none

/-- `get_recent_messages_for_summarization`: the compaction range — the
last `w` messages if a window is configured, else the whole history. -/
def get_recent_messages_for_summarization
    (m : SessionMemoryManager) : List Message :=
  match m.recent_messages_window with
  | some w => takeLastPy w m.conversation_history
  | none => m.conversation_history

/-- Outcome of `llm_client.generate_structured(SessionMemory, ...)`:
either a pydantic-validated `SessionMemory` (all required fields present,
including `scope` — a response that omits one fails validation and raises,
which is the `failure` case), or failure (any exception: API error,
timeout, malformed output). -/
inductive SummarizerResult where
  | success (summary : SessionMemory)
  | failure
deriving Repr, DecidableEq

/-- `_create_minimal_summary`: the deterministic fallback record built
when the LLM call fails.  `nowId`/`nowTs` stand for the
`datetime.now()`-derived id and timestamp.  (Python computes
`max(0, len(history) - 1)` in the no-range branch; `Nat` truncated
subtraction coincides with it.) -/
def create_minimal_summary (m : SessionMemoryManager) (nowId nowTs : String)
    (message_range : Option (Nat × Nat)) : SessionMemory :=
  let msg_from : Nat :=
    match message_range with
    | some r => r.1
    | none => 0
  let msg_to : Nat :=
    match message_range with
    | some r => r.2
    | none => m.conversation_history.length - 1
  { memory_id := nowId
    created_at := nowTs
    conversation_state := "Conversation summary (parsing error occurred)"
    user_context := some ⟨[], [], []⟩
    shared_context := []
    open_threads := []
    scope := ⟨msg_from, msg_to⟩ }

/-- `_generate_summary_with_llm`: on success the validated `SessionMemory`
is returned as-is — the three `setdefault` calls (`scope`, `memory_id`,
`created_at`) are no-ops because a validated instance always carries those
fields — and on any exception the minimal fallback is returned. -/
def generate_summary_with_llm (m : SessionMemoryManager)
    (llm : SummarizerResult) (nowId nowTs : String)
    (message_range : Option (Nat × Nat)) : SessionMemory :=
  match llm with
  | .success s => s
  | .failure => create_minimal_summary m nowId nowTs message_range

/-- `summarize_conversation`: raises `ValueError` on an empty compaction
range, otherwise summarizes the range (with fallback on failure), installs
the new record as `current_summary`, and trims the history per the
`keep_recent_after_summary` retention policy.  Returns the summary and the
new manager state. -/
def summarize_conversation (m : SessionMemoryManager)
    (llm : SummarizerResult) (nowId nowTs : String) :
    Except String (SessionMemory × SessionMemoryManager) :=
  let messages_to_summarize := get_recent_messages_for_summarization m
  if messages_to_summarize = [] then
    Except.error "No messages to summarize"
  else
    let start_idx := m.conversation_history.length - messages_to_summarize.length
    let end_idx := m.conversation_history.length - 1
    let summary := generate_summary_with_llm m llm nowId nowTs
      (some (start_idx, end_idx))
    let keep := m.keep_recent_after_summary
    let new_history : List Message :=
      if keep > 0 then
        if m.conversation_history.length > messages_to_summarize.length + keep then
          m.conversation_history.take start_idx ++ takeLastPy keep m.conversation_history
        else if messages_to_summarize.length > keep then
          takeLastPy keep m.conversation_history
        else
          m.conversation_history
      else
        if m.conversation_history.length > messages_to_summarize.length then
          m.conversation_history.take start_idx
        else
          []
    Except.ok (summary,
      { m with current_summary := some summary
               conversation_history := new_history })

/-- The exported memory fields handed to query understanding
(`get_memory_context`); `none` models the empty dict returned when no
summary is active. -/
structure ExportedMemory where
  conversation_state : String
  user_context : Option UserContext
  shared_context : List String
  open_threads : List String
deriving Repr, DecidableEq

/-- `get_memory_context`. -/
def get_memory_context (m : SessionMemoryManager) : Option ExportedMemory :=
  match m.current_summary with
  | none => none
  | some s => some ⟨s.conversation_state, s.user_context,
      s.shared_context, s.open_threads⟩

/-- The padding entry inserted when fewer than 5 recent messages exist:
`{"role": "(none)", "content": "(no earlier message)"}` (no timestamp). -/
def placeholderMessage : Message :=
  ⟨"(none)", "(no earlier message)", none⟩

/-- The `while len(recent_slice) < 5: recent_slice.insert(0, ...)` loop. -/
def pad_recent_slice (slice : List Message) : List Message :=
  if slice.length < 5 then pad_recent_slice (placeholderMessage :: slice)
  else slice
termination_by 5 - slice.length

/-- The `_sort_key` of `_build_final_context`:
`((m.get("timestamp") or "")[:26], original_index)`. -/
def sort_key (x : Nat × Message) : String × Nat :=
  ((x.2.timestamp.getD "").take 26, x.1)

/-- Boolean `≤` on sort keys: ascending timestamp-prefix with the original
position as tie-break (this is the lexicographic tuple order Python's
`sorted` applies to `_sort_key` results, which are pairwise distinct in
the second component). -/
def sortKeyLe (a b : Nat × Message) : Bool :=
  if (sort_key a).1 = (sort_key b).1 then decide ((sort_key a).2 ≤ (sort_key b).2)
  else decide ((sort_key a).1 < (sort_key b).1)

/-- `sorted(enumerate(recent_messages), key=_sort_key)` followed by
dropping the indices. -/
def order_recent_messages (recent : List Message) : List Message :=
  ((recent.enum).mergeSort sortKeyLe).map Prod.snd

/-- The `recent_slice` selection of `_build_final_context`: with an active
summary, the last 5 raw-window messages left-padded to 5; without one, the
whole raw window reordered chronologically. -/
def recent_slice_of (has_session_summary : Bool)
    (recent_messages : List Message) : List Message :=
  if has_session_summary then
    pad_recent_slice (takeLastPy 5 recent_messages)
  else
    order_recent_messages recent_messages

/-- One rendered recent-message line: `"role: content"` with content
truncated to 400 characters. -/
def renderRecentLine (msg : Message) : String :=
  msg.role ++ ": " ++ msg.content.take 400

/-- `_build_final_context` (translated statement by statement). -/
def build_final_context (query clarified_query : String)
    (session_memory_context : Option ExportedMemory)
    (selected_memory : List String)
    (recent_messages : List Message)
    (has_session_summary : Bool)
    (clarifying_questions : List String)
    (is_ambiguous : Bool) : String :=
  let original_block :=
    "ORIGINAL QUERY:\n" ++ query ++ "\n\nCLARIFIED QUERY:\n" ++
      (if clarified_query = "" then query else clarified_query)
  let original_block :=
    if is_ambiguous ∧ clarifying_questions ≠ [] then
      original_block ++
        "\n\nCLARIFYING_QUESTIONS (query was ambiguous; use these to ask the user naturally, not as a rigid list):\n" ++
        String.intercalate "\n" (clarifying_questions.map (fun q => "- " ++ q))
    else original_block
  let conversation_state :=
    match session_memory_context with
    | none => "(none)"
    | some e =>
      if e.conversation_state = "" then "(none)" else e.conversation_state
  let selected_block :=
    if selected_memory = [] then "None."
    else String.intercalate "\n" (selected_memory.map (fun s => "- " ++ s))
  let recent_slice := recent_slice_of has_session_summary recent_messages
  let recent_label :=
    if has_session_summary then "RECENT MESSAGES (last 5)"
    else "RECENT MESSAGES"
  let recent_block :=
    String.intercalate "\n" (recent_slice.map renderRecentLine)
  original_block ++ "\n\n" ++
    "CONVERSATION STATE:\n" ++ conversation_state ++ "\n\n" ++
    "SELECTED MEMORY:\n" ++ selected_block ++ "\n\n" ++
    recent_label ++ ":\n" ++ recent_block

/-- The fields the query-understanding LLM call fills
(`CoreQueryUnderstandingLLMOutput`); an oracle value in the model. -/
structure CoreLLMOutput where
  is_ambiguous : Bool
  clarified_query : String
  clarifying_questions : List String
  selected_memory : List String
deriving Repr, DecidableEq

/-- `QueryUnderstandingPipeline.process_query`, reduced to the
`final_context` it assembles (the other output fields are copied from the
oracle).  The call site never passes `has_session_summary`, so the
default `True` is always used. -/
def process_query (query : String) (recent_messages : List Message)
    (session_memory_context : Option ExportedMemory)
    (llmOut : CoreLLMOutput) : String :=
  build_final_context query llmOut.clarified_query session_memory_context
    llmOut.selected_memory recent_messages true
    llmOut.clarifying_questions llmOut.is_ambiguous

/-- `ChatAssistant._generate_response`: the canned clarification reply
when the query is ambiguous with questions, else the generator's free
text (`generated` is the external LLM's answer). -/
def generate_response (qu : CoreLLMOutput) (generated : String) : String :=
  if qu.is_ambiguous ∧ qu.clarifying_questions ≠ [] then
    let intro :=
      "Câu hỏi hiện tại vẫn hơi mơ hồ so với ngữ cảnh trước đó, " ++
      "mình cần bạn làm rõ thêm trước khi trả lời chính xác.\n\n" ++
      "Bạn giúp trả lời một vài câu hỏi sau:"
    String.intercalate "\n"
      (intro :: (qu.clarifying_questions.take 3).enum.map
        (fun p => toString (p.1 + 1) ++ ". " ++ p.2))
  else generated

/-- Result of one `process_user_message` turn. -/
structure TurnResult where
  response : String
  final_context : String
  summary_triggered : Bool
  summary : Option SessionMemory
  state : SessionMemoryManager
deriving Repr, DecidableEq

/-- `ChatAssistant.process_user_message`.  External effects are
parameters: `summarizer` is the summarization-call outcome, `oracle` the
query-understanding output, `generated` the response generator's text,
`nowId`/`nowTs` the fallback-summary id/timestamp, and `tsTemp`, `tsUser`,
`tsAsst` the `datetime.now()` strings of the snapshot and the two
appends.  An uncaught `ValueError` from `summarize_conversation`
propagates as `Except.error`. -/
def process_user_message (st : SessionMemoryManager) (user_input : String)
    (summarizer : SummarizerResult) (oracle : CoreLLMOutput)
    (generated : String) (nowId nowTs tsTemp tsUser tsAsst : String) :
    Except String TurnResult :=
  let run := fun (st1 : SessionMemoryManager) (triggered : Bool)
      (summary : Option SessionMemory) =>
    let temp_history := st1.conversation_history ++
      [⟨"user", user_input, some tsTemp⟩]
    let recent_messages := takeLastPy 5 temp_history
    let fc := process_query user_input recent_messages
      (get_memory_context st1) oracle
    let resp := generate_response oracle generated
    let st2 := add_message st1 "user" user_input none tsUser
    let st3 := add_message st2 "assistant" resp none tsAsst
    Except.ok ⟨resp, fc, triggered, summary, st3⟩
  if should_summarize st then
    match summarize_conversation st summarizer nowId nowTs with
    | .error e => .error e
    | .ok (summary, st1) => run st1 true (some summary)
  else
    run st false none

/-- Concrete state for the C4 counterexample: two messages, no window,
so the computed compaction range is indices 0..1. -/
def scopeCexState : SessionMemoryManager :=
  ⟨1000, none, 5, none,
    [⟨"user", "a", some "t0"⟩, ⟨"assistant", "b", some "t1"⟩]⟩

/-- A successful (pydantic-validated) summarizer output whose `scope`
differs from the computed range. -/
def scopeCexSummary : SessionMemory :=
  ⟨"mem_x", "2024-01-01T00:00:00", "some state", none, [], [], ⟨7, 9⟩⟩

/-- A short message for the concrete retention example. -/
def retentionMsg (i : Nat) : Message := ⟨"user", "m" ++ toString i, some (toString i)⟩

/-- The spec's example state: threshold 1000, window 20, keep 5, a
history of 25 short messages (indices 0..24); the compacted range is the
last 20 messages, indices 5..24. -/
def retentionCexState : SessionMemoryManager :=
  ⟨1000, some 20, 5, none, (List.range 25).map retentionMsg⟩

/-- Its compaction outcome (summarizer outcome is irrelevant to trimming;
`failure` keeps the example closed). -/
def retentionCexResult : Except String (SessionMemory × SessionMemoryManager) :=
  summarize_conversation retentionCexState .failure "mid" "mts"

/-- Witness state for the amended retention theorem: 6 messages of
pre-range history plus a 12-message compacted range, keep-count 5. -/
def retentionWitnessState : SessionMemoryManager :=
  ⟨1, some 12, 5, none, (List.range 18).map retentionMsg⟩

/-- Spec-side definition: "the last W messages when a window is
configured, else the entire log". -/
def spec_recent_window (m : SessionMemoryManager) : List Message :=
  match m.recent_messages_window with
  | some w => m.conversation_history.drop (m.conversation_history.length - w)
  | none => m.conversation_history

/-- Spec-side definition: "the length of the newline-joined
`role: content` lines divided by 4 (integer division, 0 for an empty
window)" — the empty case needs no special treatment since the join of
nothing is the empty string. -/
def spec_token_size (msgs : List Message) : Nat :=
  (String.intercalate "\n" (msgs.map roleContentLine)).length / 4

/-- Amended spec-side window, matching the code's `[-W:]` slice
semantics: the last `W` messages for a configured `W ≥ 1`, but the
*entire* log when no window is configured or when `W = 0` (Python's
`[-0:]` suffix slice is `[0:]`, the whole list, not the last 0
messages). -/
def spec_recent_window_amended (m : SessionMemoryManager) : List Message :=
  match m.recent_messages_window with
  | some w =>
    if w = 0 then m.conversation_history
    else m.conversation_history.drop (m.conversation_history.length - w)
  | none => m.conversation_history

/-- A manager configured with the degenerate window `W = 0`: threshold 4
and one message whose `"role: content"` line has 22 characters (token
size 5). -/
def windowZeroState : SessionMemoryManager :=
  ⟨4, some 0, 5, none, [⟨"user", "0123456789abcdef", some "t"⟩]⟩

/-- A manager whose compaction (keep-count 0, whole log in range) drains
the history, leaving the window token size below the threshold. -/
def compactionDrainState : SessionMemoryManager :=
  ⟨100, none, 0, none, [⟨"user", "hi", some "t"⟩]⟩

/-- Message for the C2 concrete turn. -/
def turnMsg (i : Nat) : Message := ⟨"user", "c" ++ toString i, some (toString i)⟩

/-- Concrete pre-turn state: threshold 1 (so compaction triggers), no
window, keep 5, 12 messages (indices 0..11). -/
def turnCexState : SessionMemoryManager :=
  ⟨1, none, 5, none, (List.range 12).map turnMsg⟩

/-- The concrete turn: compaction runs with a failing summarizer (so the
record carries the computed scope 0..11), then "hello" / the reply are
appended. -/
def turnCexResult : Except String TurnResult :=
  process_user_message turnCexState "hello" .failure ⟨false, "hq", [], []⟩
    "resp" "mid" "mts" "t1" "t2" "t3"

/-- The query section of `final_context` (original + clarified query,
plus the clarifying-questions block when the query was ambiguous). -/
def query_section (query clarified_query : String)
    (clarifying_questions : List String) (is_ambiguous : Bool) : String :=
  let base :=
    "ORIGINAL QUERY:\n" ++ query ++ "\n\nCLARIFIED QUERY:\n" ++
      (if clarified_query = "" then query else clarified_query)
  if is_ambiguous ∧ clarifying_questions ≠ [] then
    base ++
      "\n\nCLARIFYING_QUESTIONS (query was ambiguous; use these to ask the user naturally, not as a rigid list):\n" ++
      String.intercalate "\n" (clarifying_questions.map (fun q => "- " ++ q))
  else base

/-- The conversation-state text: the active record's state or the
`"(none)"` placeholder when there is no active record (or an empty
state). -/
def conversation_state_text (ctx : Option ExportedMemory) : String :=
  match ctx with
  | none => "(none)"
  | some e => if e.conversation_state = "" then "(none)" else e.conversation_state

/-- The selected-memory block: one `"- "` line per snippet, or the
literal `"None."` when empty. -/
def selected_memory_block (selected_memory : List String) : String :=
  if selected_memory = [] then "None."
  else String.intercalate "\n" (selected_memory.map (fun s => "- " ++ s))

/-- The recent-messages header. -/
def recent_messages_label (has_session_summary : Bool) : String :=
  if has_session_summary then "RECENT MESSAGES (last 5)" else "RECENT MESSAGES"

/-- The rendered recent-messages block. -/
def recent_messages_block (has_session_summary : Bool)
    (recent_messages : List Message) : String :=
  String.intercalate "\n"
    ((recent_slice_of has_session_summary recent_messages).map renderRecentLine)

/-- The opening brace character (U+007B). -/
def lbrace : Char := Char.ofNat 123

/-- The closing brace character (U+007D). -/
def rbrace : Char := Char.ofNat 125

/-- State of the single forward scan of `load_conversation_log`:
completed candidate spans, brace depth (Python ints go negative on stray
closers), quoted-string flag, backslash-escape flag, and the span being
captured (`none` when `start_idx is None`). -/
structure ScanState where
  chunks : List (List Char)
  depth : Int
  in_string : Bool
  escape : Bool
  acc : Option (List Char)
deriving Repr, DecidableEq

/-- Extend the captured span, if one is open.  (Python captures spans
positionally as `text[start_idx : i + 1]`, so *every* character between
the opening brace and its closer lands in the span.) -/
def pushAcc (acc : Option (List Char)) (c : Char) : Option (List Char) :=
  match acc with
  | none => none
  | some a => some (a ++ [c])

/-- One iteration of the scanning loop, branch for branch. -/
def scanStep (st : ScanState) (c : Char) : ScanState :=
  if st.escape then { st with escape := false, acc := pushAcc st.acc c }
  else if c = '\\' then { st with escape := true, acc := pushAcc st.acc c }
  else if c = '"' then
    { st with in_string := !st.in_string, acc := pushAcc st.acc c }
  else if st.in_string then { st with acc := pushAcc st.acc c }
  else if c = lbrace then
    if st.depth = 0 then { st with depth := st.depth + 1, acc := some [c] }
    else { st with depth := st.depth + 1, acc := pushAcc st.acc c }
  else if c = rbrace then
    if st.depth - 1 = 0 ∧ st.acc.isSome then
      { st with depth := st.depth - 1,
                chunks := st.chunks ++ [st.acc.getD [] ++ [c]],
                acc := none }
    else { st with depth := st.depth - 1, acc := pushAcc st.acc c }
  else { st with acc := pushAcc st.acc c }

/-- Initial scanner state. -/
def scanInit : ScanState := ⟨[], 0, false, false, none⟩

/-- Scan a whole transcript. -/
def scanText (text : List Char) : ScanState := text.foldl scanStep scanInit

/-- Pre-decoding sanitization: every control character (code point < 32)
except horizontal tab becomes a single space. -/
def sanitizeChunk (cs : List Char) : List Char :=
  cs.map (fun c => if c.toNat < 32 ∧ c ≠ '\t' then ' ' else c)

/-- JSON insignificant whitespace. -/
def isJsonWs (c : Char) : Bool :=
  c = ' ' || c = '\t' || c = '\n' || c = '\r'

/-- Skip insignificant whitespace. -/
def skipWs : List Char → List Char
  | [] => []
  | c :: rest => if isJsonWs c then skipWs rest else c :: rest

/-- Value of one hexadecimal digit. -/
def hexDigitVal (c : Char) : Option Nat :=
  if '0' ≤ c ∧ c ≤ '9' then some (c.toNat - 48)
  else if 'a' ≤ c ∧ c ≤ 'f' then some (c.toNat - 87)
  else if 'A' ≤ c ∧ c ≤ 'F' then some (c.toNat - 55)
  else none

/-- Decoded form of a single-character JSON escape. -/
def unescapeChar (c : Char) : Option Char :=
  if c = '"' then some '"'
  else if c = '\\' then some '\\'
  else if c = '/' then some '/'
  else if c = 'n' then some '\n'
  else if c = 't' then some '\t'
  else if c = 'r' then some '\r'
  else if c = 'b' then some (Char.ofNat 8)
  else if c = 'f' then some (Char.ofNat 12)
  else none

/-- Parse the body of a JSON string literal (after the opening quote) up
to and including the closing quote; returns the decoded characters and
the remaining input. -/
def parseStringBody : List Char → Option (List Char × List Char)
  | [] => none
  | '"' :: rest => some ([], rest)
  | '\\' :: 'u' :: h1 :: h2 :: h3 :: h4 :: rest3 =>
    match hexDigitVal h1, hexDigitVal h2, hexDigitVal h3, hexDigitVal h4 with
    | some a, some b, some c2, some d =>
      match parseStringBody rest3 with
      | some (body, rem) =>
        some (Char.ofNat (((a * 16 + b) * 16 + c2) * 16 + d) :: body, rem)
      | none => none
    | _, _, _, _ => none
  | '\\' :: 'u' :: _ => none
  | '\\' :: e :: rest2 =>
    match unescapeChar e with
    | some u =>
      match parseStringBody rest2 with
      | some (body, rem) => some (u :: body, rem)
      | none => none
    | none => none
  | ['\\'] => none
  | c :: rest =>
    if c.toNat < 32 then none
    else
      match parseStringBody rest with
      | some (body, rem) => some (c :: body, rem)
      | none => none

/-- Parse a JSON string token (expects the opening quote). -/
def parseJsonString (cs : List Char) : Option (List Char × List Char) :=
  match cs with
  | c :: rest => if c = '"' then parseStringBody rest else none
  | [] => none

/-- Parse one `"key": "value"` member (string values only). -/
def parseMember (cs : List Char) : Option ((String × String) × List Char) :=
  match parseJsonString (skipWs cs) with
  | none => none
  | some (key, rest) =>
    match skipWs rest with
    | ':' :: rest2 =>
      match parseJsonString (skipWs rest2) with
      | none => none
      | some (v, rest3) => some ((String.mk key, String.mk v), rest3)
    | _ => none

/-- Parse the members of an object (fuel-bounded; callers pass at least
`length + 1`, and each member consumes at least one character). -/
def parseMembers : Nat → List Char → Option (List (String × String) × List Char)
  | 0, _ => none
  | fuel + 1, cs =>
    match parseMember cs with
    | none => none
    | some (kv, rest) =>
      match skipWs rest with
      | ',' :: rest2 =>
        match parseMembers fuel rest2 with
        | some (kvs, rem) => some (kv :: kvs, rem)
        | none => none
      | c :: rest2 =>
        if c = rbrace then some ([kv], rest2) else none
      | [] => none

/-- The `json.loads` model: one flat string-valued object, with nothing
but whitespace around it. -/
def json_loads_record (cs : List Char) : Option (List (String × String)) :=
  match skipWs cs with
  | c :: rest =>
    if c = lbrace then
      match skipWs rest with
      | c2 :: rest2 =>
        if c2 = rbrace then
          if skipWs rest2 = [] then some [] else none
        else
          match parseMembers ((skipWs rest).length + 1) (skipWs rest) with
          | some (kvs, rem) =>
            if skipWs rem = [] then some kvs else none
          | none => none
      | [] => none
    else none
  | [] => none

/-- Python `dict` built from JSON pairs: the last occurrence of a key
wins. -/
def dictGet (d : List (String × String)) (k : String) : Option String :=
  match d.reverse.find? (fun p => p.1 == k) with
  | some p => some p.2
  | none => none

/-- Result of `load_conversation_log` on a `.jsonl` transcript: the new
manager state plus the three observable warning conditions (unbalanced
braces, per-entry decode skips, nothing loaded). -/
structure LoadResult where
  state : SessionMemoryManager
  unbalanced_warning : Bool
  skipped_count : Nat
  nothing_loaded_warning : Bool
deriving Repr, DecidableEq

/-- The per-chunk loading loop body: sanitize, decode, and on success
`add_message` with the dict's `role`/`content`/`timestamp` (defaults
`"user"` / `""` / absent). -/
def loadChunkStep (now : String) (acc : SessionMemoryManager × Nat × Nat)
    (raw_chunk : List Char) : SessionMemoryManager × Nat × Nat :=
  match json_loads_record (sanitizeChunk raw_chunk) with
  | none => (acc.1, acc.2.1, acc.2.2 + 1)
  | some d =>
    (add_message acc.1 ((dictGet d "role").getD "user")
        ((dictGet d "content").getD "") (dictGet d "timestamp") now,
      acc.2.1 + 1, acc.2.2)

/-- `load_conversation_log` (JSONL branch): scan, then decode each
candidate span independently. -/
def load_conversation_log (m : SessionMemoryManager) (text : List Char)
    (now : String) : LoadResult :=
  let scan := scanText text
  let folded := scan.chunks.foldl (loadChunkStep now) (m, 0, 0)
  ⟨folded.1, decide (scan.depth ≠ 0), folded.2.2, decide (folded.2.1 = 0)⟩

/-- Lowercase hexadecimal digit. -/
def hexDigitChar (n : Nat) : Char :=
  if n < 10 then Char.ofNat (48 + n) else Char.ofNat (87 + n)

/-- `json.dumps` escaping of one character (`ensure_ascii=False`): quote
and backslash are escaped, control characters use their short escapes or
`\u00xx`, everything else is emitted raw. -/
def escapeJsonChar (c : Char) : List Char :=
  if c = '"' then ['\\', '"']
  else if c = '\\' then ['\\', '\\']
  else if c = '\n' then ['\\', 'n']
  else if c = '\t' then ['\\', 't']
  else if c = '\r' then ['\\', 'r']
  else if c = Char.ofNat 8 then ['\\', 'b']
  else if c = Char.ofNat 12 then ['\\', 'f']
  else if c.toNat < 32 then
    ['\\', 'u', '0', '0', hexDigitChar (c.toNat / 16), hexDigitChar (c.toNat % 16)]
  else [c]

/-- Escape a whole string body. -/
def escChars (cs : List Char) : List Char := cs.flatMap escapeJsonChar

/-- A serialized JSON string token. -/
def jsonStringToken (s : String) : List Char :=
  '"' :: (escChars s.data ++ ['"'])

/-- A record as written by the logger (`timestamp` already resolved by
`timestamp or datetime.now().isoformat()`). -/
structure LogRecord where
  role : String
  content : String
  timestamp : String
deriving Repr, DecidableEq

/-- The serialized record, without the trailing newline, with `\x7d`
split off so the scanner lemmas can align on the closing brace. -/
def encodeEntryInner (r : LogRecord) : List Char :=
  lbrace :: (jsonStringToken "role" ++ (':' :: ' ' :: jsonStringToken r.role)
    ++ (',' :: ' ' :: jsonStringToken "content")
    ++ (':' :: ' ' :: jsonStringToken r.content)
    ++ (',' :: ' ' :: jsonStringToken "timestamp")
    ++ (':' :: ' ' :: jsonStringToken r.timestamp))

/-- `json.dumps({"role": ..., "content": ..., "timestamp": ...},
ensure_ascii=False)` with the default `", "` / `": "` separators. -/
def encodeEntry (r : LogRecord) : List Char :=
  encodeEntryInner r ++ [rbrace]

/-- `log_message` writes one serialized record plus `"\n"`; a transcript
is the concatenation of the written lines. -/
def encodeLog (records : List LogRecord) : List Char :=
  (records.map (fun r => encodeEntry r ++ ['\n'])).flatten

/-- The message `load_conversation_log` reconstructs from a well-formed
logged record (the written timestamp is non-empty in practice, so
`pyOrStr` keeps it). -/
def loggedMessage (r : LogRecord) (now : String) : Message :=
  ⟨r.role, r.content, some (pyOrStr (some r.timestamp) now)⟩

/-- The content string token of a written record with a raw (unescaped)
newline inserted between two halves of the content. -/
def injectedContentToken (c1 c2 : String) : List Char :=
  '"' :: (escChars c1.data ++ '\n' :: (escChars c2.data ++ ['"']))

/-- A serialized record whose content field carries the injected raw
newline. -/
def encodeEntryInjected (role c1 c2 ts : String) : List Char :=
  (lbrace :: (jsonStringToken "role" ++ (':' :: ' ' :: jsonStringToken role)
    ++ (',' :: ' ' :: jsonStringToken "content")
    ++ (':' :: ' ' :: injectedContentToken c1 c2)
    ++ (',' :: ' ' :: jsonStringToken "timestamp")
    ++ (':' :: ' ' :: jsonStringToken ts))) ++ [rbrace]

/-- The decoding of one captured span, as the loading loop performs it:
sanitize, `json.loads`, then build the message with the dict defaults. -/
def decodeChunk (now : String) (raw_chunk : List Char) : Option Message :=
  match json_loads_record (sanitizeChunk raw_chunk) with
  | none => none
  | some d => some ⟨(dictGet d "role").getD "user",
      (dictGet d "content").getD "",
      some (pyOrStr (dictGet d "timestamp") now)⟩

/-- A truncated record: opening brace and two fields but no closing
brace (its final string is also unterminated). -/
def truncatedSpan : List Char := "\x7b\"role\": \"user\", \"content\": \"x".data

/-- Two valid records for the fault-tolerance examples. -/
def validA : LogRecord := ⟨"user", "first", "t1"⟩

def validB : LogRecord := ⟨"assistant", "second", "t2"⟩

/-- A transcript with the truncated record *between* the two valid
ones. -/
def truncatedMidTranscript : List Char :=
  encodeLog [validA] ++ (truncatedSpan ++ ['\n']) ++ encodeLog [validB]

/-! ## Theorems -/

theorem takeLastPy_eq_nil_iff {α : Type} (n : Nat) (xs : List α) :
    takeLastPy n xs = [] ↔ xs = [] := by
  unfold takeLastPy
  split
  · exact Iff.rfl
  · rw [List.drop_eq_nil_iff]
    constructor
    · intro hle
      rcases xs with _ | ⟨a, t⟩
      · rfl
      · exfalso
        simp only [List.length_cons] at hle
        omega
    · intro h; subst h; simp

theorem range_eq_nil_iff (m : SessionMemoryManager) :
    get_recent_messages_for_summarization m = [] ↔ m.conversation_history = [] := by
  unfold get_recent_messages_for_summarization
  cases m.recent_messages_window with
  | none => exact Iff.rfl
  | some w => exact takeLastPy_eq_nil_iff w m.conversation_history

/-- On a non-empty history, `summarize_conversation` succeeds and returns
the record produced by `_generate_summary_with_llm` for the computed
range, installed as `current_summary`. -/
theorem summarize_ok_shape (m : SessionMemoryManager) (llm : SummarizerResult)
    (nowId nowTs : String) (h : m.conversation_history ≠ []) :
    ∃ st', summarize_conversation m llm nowId nowTs =
      Except.ok (generate_summary_with_llm m llm nowId nowTs
        (some (m.conversation_history.length -
                 (get_recent_messages_for_summarization m).length,
               m.conversation_history.length - 1)), st')
      ∧ st'.current_summary = some (generate_summary_with_llm m llm nowId nowTs
        (some (m.conversation_history.length -
                 (get_recent_messages_for_summarization m).length,
               m.conversation_history.length - 1)))
      ∧ st'.token_threshold = m.token_threshold
      ∧ st'.recent_messages_window = m.recent_messages_window
      ∧ st'.keep_recent_after_summary = m.keep_recent_after_summary := by
  have hr : get_recent_messages_for_summarization m ≠ [] := by
    intro hc; exact h ((range_eq_nil_iff m).mp hc)
  unfold summarize_conversation
  rw [if_neg hr]
  exact ⟨_, rfl, rfl, rfl, rfl, rfl⟩

/-- C10: `summarize_conversation` raises `ValueError("No messages to
summarize")` exactly when the conversation history is empty (the selected
compaction range is empty iff the history is), it does so before any
summarizer call (the result does not depend on the summarizer outcome),
and — the model being purely functional — the error branch returns no new
state, so the history and active summary are untouched; on a non-empty
history compaction has the never-raising behaviour instead. -/
theorem summarize_raises_iff_empty_history (m : SessionMemoryManager)
    (llm llm2 : SummarizerResult) (nowId nowTs : String) :
    (m.conversation_history = [] →
      summarize_conversation m llm nowId nowTs =
        Except.error "No messages to summarize"
      ∧ summarize_conversation m llm nowId nowTs =
          summarize_conversation m llm2 nowId nowTs)
    ∧ (m.conversation_history ≠ [] →
      ∃ s st', summarize_conversation m llm nowId nowTs = Except.ok (s, st')) := by
  constructor
  · intro h
    have hr : get_recent_messages_for_summarization m = [] :=
      (range_eq_nil_iff m).mpr h
    constructor
    · unfold summarize_conversation
      rw [if_pos hr]
    · unfold summarize_conversation
      rw [if_pos hr, if_pos hr]
  · intro h
    obtain ⟨st', heq, -⟩ := summarize_ok_shape m llm nowId nowTs h
    exact ⟨_, st', heq⟩

/-- C10 witness: on a concrete empty-history manager the call errors
independently of the summarizer outcome, and on a one-message history it
succeeds. -/
theorem summarize_raises_iff_empty_history_witness :
    (summarize_conversation ⟨1000, none, 5, none, []⟩ .failure "i" "t" =
        Except.error "No messages to summarize")
    ∧ (∃ s st', summarize_conversation
        ⟨1000, none, 5, none, [⟨"user", "hi", some "t0"⟩]⟩ .failure "i" "t" =
          Except.ok (s, st')) := by
  refine ⟨((summarize_raises_iff_empty_history ⟨1000, none, 5, none, []⟩
    .failure .failure "i" "t").1 rfl).1, ?_⟩
  exact (summarize_raises_iff_empty_history ⟨1000, none, 5, none,
    [⟨"user", "hi", some "t0"⟩]⟩ .failure .failure "i" "t").2 (by simp)

/-- C3: if the summarizer call fails (any exception or malformed result),
compaction does not raise past that point: `summarize_conversation` still
completes with an `ok` result and installs a minimal fallback record whose
`conversation_state` is the explicit placeholder text, whose context lists
are all empty, and whose `scope` is the computed range of the compacted
slice. -/
theorem summarizer_failure_installs_fallback (m : SessionMemoryManager)
    (nowId nowTs : String) (h : m.conversation_history ≠ []) :
    ∃ s st', summarize_conversation m .failure nowId nowTs = Except.ok (s, st')
      ∧ s.conversation_state = "Conversation summary (parsing error occurred)"
      ∧ s.user_context = some ⟨[], [], []⟩
      ∧ s.shared_context = []
      ∧ s.open_threads = []
      ∧ s.scope = ⟨m.conversation_history.length -
            (get_recent_messages_for_summarization m).length,
          m.conversation_history.length - 1⟩
      ∧ st'.current_summary = some s := by
  obtain ⟨st', heq, hcur, -⟩ := summarize_ok_shape m .failure nowId nowTs h
  exact ⟨_, st', heq, rfl, rfl, rfl, rfl, rfl, hcur⟩

/-- C3 witness: concrete two-message history, failing summarizer. -/
theorem summarizer_failure_installs_fallback_witness :
    ((⟨1000, none, 5, none, [⟨"user", "a", some "t0"⟩,
        ⟨"assistant", "b", some "t1"⟩]⟩ : SessionMemoryManager).conversation_history ≠ [])
    ∧ ∃ s st', summarize_conversation
        ⟨1000, none, 5, none, [⟨"user", "a", some "t0"⟩,
          ⟨"assistant", "b", some "t1"⟩]⟩ .failure "mid" "mts" = Except.ok (s, st')
      ∧ s.conversation_state = "Conversation summary (parsing error occurred)"
      ∧ s.scope = ⟨0, 1⟩ := by
  have h := summarizer_failure_installs_fallback
    ⟨1000, none, 5, none, [⟨"user", "a", some "t0"⟩,
      ⟨"assistant", "b", some "t1"⟩]⟩ "mid" "mts" (by simp)
  obtain ⟨s, st', heq, hstate, -, -, -, hscope, -⟩ := h
  exact ⟨by simp, s, st', heq, hstate, by rw [hscope]; rfl⟩

/-- C4 counterexample: after a *successful* compaction of
`scopeCexState` (computed range 0..1) in which the summarizer returned
`scope = ⟨7, 9⟩`, the installed active record keeps the summarizer's
scope — the computed value does **not** override it (`setdefault` only
fills a missing key, and a validated `SessionMemory` always has one). -/
theorem scope_not_overridden_counterexample :
    (summarize_conversation scopeCexState (.success scopeCexSummary)
        "mid" "mts" =
      Except.ok (scopeCexSummary,
        { scopeCexState with current_summary := some scopeCexSummary }))
    ∧ (scopeCexState.conversation_history.length -
          (get_recent_messages_for_summarization scopeCexState).length,
        scopeCexState.conversation_history.length - 1) = (0, 1)
    ∧ scopeCexSummary.scope ≠ ⟨0, 1⟩ := by
  refine ⟨?_, rfl, by decide⟩
  rfl

/-- C4 amended: after a compaction the active record's scope equals the
computed range `(len(history) − len(range), len(history) − 1)` whenever
the summarizer failed (which includes every response that omits `scope`,
since pydantic validation rejects it); on a successful summarizer call
the returned record — including its `scope` — is installed verbatim, the
computed value only *filling* a missing scope, never overriding one. -/
theorem scope_computed_on_fallback_kept_on_success (m : SessionMemoryManager)
    (nowId nowTs : String) (h : m.conversation_history ≠ []) :
    (∀ res st', summarize_conversation m .failure nowId nowTs =
        Except.ok (res, st') →
      res.scope = ⟨m.conversation_history.length -
            (get_recent_messages_for_summarization m).length,
          m.conversation_history.length - 1⟩
      ∧ st'.current_summary = some res)
    ∧ (∀ s res st', summarize_conversation m (.success s) nowId nowTs =
        Except.ok (res, st') →
      res = s ∧ st'.current_summary = some s) := by
  constructor
  · intro res st' heq
    obtain ⟨st'', heq', hcur, -⟩ := summarize_ok_shape m .failure nowId nowTs h
    rw [heq'] at heq
    obtain ⟨h1, h2⟩ := Prod.mk.injEq .. ▸ Except.ok.inj heq
    subst h1; subst h2
    exact ⟨rfl, hcur⟩
  · intro s res st' heq
    obtain ⟨st'', heq', hcur, -⟩ := summarize_ok_shape m (.success s) nowId nowTs h
    rw [heq'] at heq
    obtain ⟨h1, h2⟩ := Prod.mk.injEq .. ▸ Except.ok.inj heq
    subst h1; subst h2
    exact ⟨rfl, hcur⟩

/-- C4 amended witness: instantiated at the counterexample state, for a
failing summarizer (computed scope 0..1 attached) and for the successful
summarizer of the counterexample (scope kept verbatim). -/
theorem scope_computed_on_fallback_kept_on_success_witness :
    (scopeCexState.conversation_history ≠ []) ∧
    ∃ res st', summarize_conversation scopeCexState .failure "mid" "mts" =
        Except.ok (res, st')
      ∧ res.scope = ⟨0, 1⟩ := by
  have h := (scope_computed_on_fallback_kept_on_success scopeCexState
    "mid" "mts" (by simp [scopeCexState])).1
  refine ⟨by simp [scopeCexState], ?_⟩
  obtain ⟨st', heq, -⟩ := summarize_ok_shape scopeCexState .failure "mid" "mts"
    (by simp [scopeCexState])
  obtain ⟨hscope, -⟩ := h _ st' heq
  exact ⟨_, st', heq, by rw [hscope]; rfl⟩

/-- C1 counterexample: in the threshold=1000 / window=20 / 25-message
example, the post-compaction log is exactly the last 5 messages — length
5, not "5 plus any pre-window history" (= 10 here): the 5 pre-window
messages are dropped because `len(history) > len(range) + keep` fails
(25 ≤ 20 + 5) and the `elif len(range) > keep` branch keeps only the
last 5.  The record's scope is the computed 5..24 as the spec says. -/
theorem retention_example_counterexample :
    (retentionCexResult.toOption.map fun p => p.2.conversation_history.length)
        = some 5
    ∧ (retentionCexResult.toOption.map fun p => p.1.scope) = some ⟨5, 24⟩
    ∧ ((retentionCexResult.toOption.map fun p => p.2.conversation_history.length)
        ≠ some (5 + 5)) := by
  refine ⟨?_, ?_, ?_⟩ <;> decide

/-- C1 amended: the exact retention trichotomy of
`summarize_conversation` for history `H`, compacted range `R` (a suffix
of `H`) and keep-count `K`: with `K > 0` and `|H| > |R| + K`, the result
is the messages before `R` plus the last `K`; with `K > 0`,
`|H| ≤ |R| + K` and `|R| > K`, only the last `K` remain (any pre-range
history is dropped); with `K > 0` and `|R| ≤ K`, the log is unchanged;
with `K = 0` the range is removed exactly (empty log iff the whole log
was in the range). -/
theorem retention_after_compaction (m : SessionMemoryManager)
    (llm : SummarizerResult) (nowId nowTs : String) (s : SessionMemory)
    (m' : SessionMemoryManager)
    (hok : summarize_conversation m llm nowId nowTs = Except.ok (s, m')) :
    (0 < m.keep_recent_after_summary →
      (get_recent_messages_for_summarization m).length +
          m.keep_recent_after_summary < m.conversation_history.length →
      m'.conversation_history =
        m.conversation_history.take (m.conversation_history.length -
            (get_recent_messages_for_summarization m).length)
          ++ takeLastPy m.keep_recent_after_summary m.conversation_history)
    ∧ (0 < m.keep_recent_after_summary →
      m.conversation_history.length ≤
          (get_recent_messages_for_summarization m).length +
            m.keep_recent_after_summary →
      m.keep_recent_after_summary <
          (get_recent_messages_for_summarization m).length →
      m'.conversation_history =
        takeLastPy m.keep_recent_after_summary m.conversation_history)
    ∧ (0 < m.keep_recent_after_summary →
      m.conversation_history.length ≤
          (get_recent_messages_for_summarization m).length +
            m.keep_recent_after_summary →
      (get_recent_messages_for_summarization m).length ≤
          m.keep_recent_after_summary →
      m'.conversation_history = m.conversation_history)
    ∧ (m.keep_recent_after_summary = 0 →
      (get_recent_messages_for_summarization m).length <
          m.conversation_history.length →
      m'.conversation_history =
        m.conversation_history.take (m.conversation_history.length -
          (get_recent_messages_for_summarization m).length))
    ∧ (m.keep_recent_after_summary = 0 →
      m.conversation_history.length ≤
          (get_recent_messages_for_summarization m).length →
      m'.conversation_history = []) := by
  unfold summarize_conversation at hok
  by_cases hr : get_recent_messages_for_summarization m = []
  · rw [if_pos hr] at hok
    exact absurd hok (by simp)
  · rw [if_neg hr] at hok
    simp only [Except.ok.injEq, Prod.mk.injEq] at hok
    obtain ⟨-, hm⟩ := hok
    subst hm
    refine ⟨?_, ?_, ?_, ?_, ?_⟩ <;> intro h1 h2 <;> try intro h3
    all_goals simp only []
    all_goals split_ifs <;> first | rfl | omega

/-- C1 amended witness: on 18 messages with window 12 and `K = 5`
(`12 + 5 < 18`), compaction keeps the 6 pre-range messages plus the last
5. -/
theorem retention_after_compaction_witness :
    ∃ s m', summarize_conversation retentionWitnessState .failure "i" "t" =
        Except.ok (s, m')
      ∧ 0 < retentionWitnessState.keep_recent_after_summary
      ∧ (get_recent_messages_for_summarization retentionWitnessState).length +
          retentionWitnessState.keep_recent_after_summary <
            retentionWitnessState.conversation_history.length
      ∧ m'.conversation_history =
          retentionWitnessState.conversation_history.take 6 ++
            takeLastPy 5 retentionWitnessState.conversation_history := by
  obtain ⟨st', heq, -⟩ := summarize_ok_shape retentionWitnessState .failure "i" "t"
    (by decide)
  have h := (retention_after_compaction retentionWitnessState .failure "i" "t"
    _ st' heq).1 (by decide) (by decide)
  exact ⟨_, st', heq, by decide, by decide, by rw [h]; rfl⟩

theorem get_context_size_eq_spec_amended (m : SessionMemoryManager) :
    get_context_size m none = spec_token_size (spec_recent_window_amended m) := by
  have hsize : ∀ msgs : List Message,
      (if msgs = [] then 0
       else (String.intercalate "\n" (msgs.map roleContentLine)).length / 4) =
        spec_token_size msgs := by
    intro msgs
    split
    · rename_i h; rw [h]; rfl
    · rfl
  unfold get_context_size spec_recent_window_amended
  cases hwin : m.recent_messages_window with
  | none =>
    dsimp only
    exact hsize m.conversation_history
  | some w =>
    dsimp only
    by_cases hw0 : w = 0
    · subst hw0
      rw [if_pos rfl]
      rw [show takeLastPy 0 m.conversation_history = m.conversation_history from by
        unfold takeLastPy; rw [if_pos rfl]]
      exact hsize m.conversation_history
    · rw [if_neg hw0]
      rw [show takeLastPy w m.conversation_history =
          m.conversation_history.drop (m.conversation_history.length - w) from by
        unfold takeLastPy; rw [if_neg hw0]]
      exact hsize _

/-- C5 counterexample: with the degenerate configured window `W = 0`,
Python's `[-0:]` slice makes `should_summarize()` check the *entire*
log, while the claim's window — "the last W messages" — is empty with
token size 0; at threshold 4 with one 22-character line the code
triggers but the claim's formula says it must not, so the claimed iff
fails at this configuration. -/
theorem trigger_window_zero_counterexample :
    should_summarize windowZeroState = true
    ∧ spec_recent_window windowZeroState = []
    ∧ spec_token_size (spec_recent_window windowZeroState) = 0
    ∧ ¬ (should_summarize windowZeroState = true ↔
        windowZeroState.token_threshold ≤
          spec_token_size (spec_recent_window windowZeroState)) := by
  refine ⟨?_, ?_, ?_, ?_⟩ <;> decide

/-- C5 (amended): for every configuration, `should_summarize()` is true
iff the token size of the recent window is at least the threshold, where
the recent window is the last `W` messages for a configured `W ≥ 1` but
the entire log when no window is configured *or when `W = 0`* (Python's
`[-0:]` slice selects the whole list); the fallback token size is the
newline-joined `role: content` length integer-divided by 4 (`0` on an
empty window); and the trigger is false immediately after any compaction
that leaves that window's token size below the threshold.  (The query is
pure by construction: it is a function of the state alone.) -/
theorem should_summarize_iff_threshold (m : SessionMemoryManager) :
    (should_summarize m = true ↔
      m.token_threshold ≤ spec_token_size (spec_recent_window_amended m))
    ∧ (∀ llm nowId nowTs s m',
        summarize_conversation m llm nowId nowTs = Except.ok (s, m') →
        spec_token_size (spec_recent_window_amended m') < m'.token_threshold →
        should_summarize m' = false) := by
  constructor
  · rw [should_summarize, get_context_size_eq_spec_amended m]
    exact decide_eq_true_iff
  · intro llm nowId nowTs s m' hok hlt
    rw [should_summarize, get_context_size_eq_spec_amended m']
    simp only [decide_eq_false_iff_not]
    omega

/-- C5 amended witness: the degenerate `W = 0` manager (the very
configuration of the counterexample) satisfies the amended iff and does
trigger, and a concrete compaction that drains the history leaves the
window below the threshold with the trigger false afterwards. -/
theorem should_summarize_iff_threshold_witness :
    (should_summarize windowZeroState = true ↔
      windowZeroState.token_threshold ≤
        spec_token_size (spec_recent_window_amended windowZeroState))
    ∧ should_summarize windowZeroState = true
    ∧ ∃ s m', summarize_conversation compactionDrainState .failure "i" "t" =
        Except.ok (s, m')
      ∧ spec_token_size (spec_recent_window_amended m') < m'.token_threshold
      ∧ should_summarize m' = false := by
  refine ⟨(should_summarize_iff_threshold windowZeroState).1, by decide, ?_⟩
  have heq : summarize_conversation compactionDrainState .failure "i" "t" =
      Except.ok
        (⟨"i", "t", "Conversation summary (parsing error occurred)",
          some ⟨[], [], []⟩, [], [], ⟨0, 0⟩⟩,
         ⟨100, none, 0,
          some ⟨"i", "t", "Conversation summary (parsing error occurred)",
            some ⟨[], [], []⟩, [], [], ⟨0, 0⟩⟩, []⟩) := by rfl
  refine ⟨_, _, heq, by decide, ?_⟩
  exact (should_summarize_iff_threshold compactionDrainState).2 .failure "i" "t"
    _ _ heq (by decide)

/-- C2 counterexample: in the concrete turn the produced record's
`scope.to` is 11 (the pre-compaction index range 0..11 was summarized),
but the just-submitted user message receives index 5 of the
post-compaction log (history `m7..m11, hello, resp` of length 7), so
`scope.to < index of the just-submitted message` is false: 11 ≥ 5. -/
theorem turn_scope_counterexample :
    (turnCexResult.toOption.bind fun r => r.summary.map (·.scope.toIdx)) = some 11
    ∧ (turnCexResult.toOption.map fun r => r.state.conversation_history.length)
        = some 7
    ∧ (turnCexResult.toOption.bind fun r => r.state.conversation_history[5]?)
        = some ⟨"user", "hello", some "t2"⟩
    ∧ ¬ (11 < 5) := by
  refine ⟨?_, ?_, ?_, by omega⟩ <;> decide

/-- C2 amended: when `should_summarize` holds at the start of a turn and
the turn completes, `process_user_message` compacts the *pre-append*
history only: the compaction is exactly `summarize_conversation` on the
pre-turn state (whose compaction range is a suffix of the pre-turn
history), the user and assistant messages are appended only afterwards,
and the computed range end `|H| - 1` is strictly below `|H|`, the index
the just-submitted message would have received in the pre-compaction
numbering.  The record's stored `scope.to` equals that computed value
whenever the summarizer fell back (a successful summarizer's record keeps
whatever scope it returned); after trimming, the message's actual index
in the post-compaction log may be smaller than `scope.to`. -/
theorem turn_compacts_only_prior_history (st : SessionMemoryManager)
    (user_input : String) (summarizer : SummarizerResult)
    (oracle : CoreLLMOutput) (generated : String)
    (nowId nowTs tsTemp tsUser tsAsst : String) (r : TurnResult)
    (htrig : should_summarize st = true)
    (hok : process_user_message st user_input summarizer oracle generated
      nowId nowTs tsTemp tsUser tsAsst = Except.ok r) :
    ∃ s st1, summarize_conversation st summarizer nowId nowTs = Except.ok (s, st1)
      ∧ r.summary = some s
      ∧ r.summary_triggered = true
      ∧ (∃ k, get_recent_messages_for_summarization st =
          st.conversation_history.drop k)
      ∧ st.conversation_history.length - 1 < st.conversation_history.length
      ∧ (summarizer = .failure →
          s.scope.toIdx = st.conversation_history.length - 1)
      ∧ r.state.conversation_history =
          st1.conversation_history ++
            [⟨"user", user_input, some tsUser⟩,
             ⟨"assistant", r.response, some tsAsst⟩] := by
  unfold process_user_message at hok
  rw [if_pos htrig] at hok
  cases hsum : summarize_conversation st summarizer nowId nowTs with
  | error e => rw [hsum] at hok; exact absurd hok (by simp)
  | ok p =>
    obtain ⟨s, st1⟩ := p
    rw [hsum] at hok
    simp only [Except.ok.injEq] at hok
    subst hok
    have hne : st.conversation_history ≠ [] := by
      intro hemp
      have : get_recent_messages_for_summarization st = [] :=
        (range_eq_nil_iff st).mpr hemp
      unfold summarize_conversation at hsum
      rw [if_pos this] at hsum
      exact absurd hsum (by simp)
    refine ⟨s, st1, rfl, rfl, rfl, ?_, ?_, ?_, ?_⟩
    · unfold get_recent_messages_for_summarization takeLastPy
      cases st.recent_messages_window with
      | none => exact ⟨0, rfl⟩
      | some w =>
        simp only []
        split
        · exact ⟨0, rfl⟩
        · exact ⟨_, rfl⟩
    · have : st.conversation_history.length ≠ 0 := by
        intro h0
        exact hne (List.length_eq_zero.mp h0)
      omega
    · rintro rfl
      obtain ⟨st'', heq, -⟩ := summarize_ok_shape st .failure nowId nowTs hne
      rw [heq] at hsum
      simp only [Except.ok.injEq, Prod.mk.injEq] at hsum
      obtain ⟨hs, -⟩ := hsum
      rw [← hs]
      rfl
    · simp [add_message, List.append_assoc, pyOrStr]

/-- C2 amended witness: the concrete turn above — trigger holds, the
turn completes, the compaction is the summarization of the pre-turn
state, and the fallback record's `scope.to` is `12 - 1 = 11`, strictly
below the pre-turn history length 12. -/
theorem turn_compacts_only_prior_history_witness :
    should_summarize turnCexState = true
    ∧ ∃ r, turnCexResult = Except.ok r
      ∧ ∃ s st1, summarize_conversation turnCexState .failure "mid" "mts" =
          Except.ok (s, st1)
        ∧ r.summary = some s
        ∧ s.scope.toIdx = 11
        ∧ 11 < turnCexState.conversation_history.length := by
  refine ⟨by decide, ?_⟩
  cases h : turnCexResult with
  | error e =>
    have hne : turnCexResult.isOk = true := by decide
    rw [h] at hne
    exact absurd hne (by simp [Except.isOk, Except.toBool])
  | ok r =>
    obtain ⟨s, st1, hsum, hrs, -, -, -, hscope, -⟩ :=
      turn_compacts_only_prior_history turnCexState "hello" .failure
        ⟨false, "hq", [], []⟩ "resp" "mid" "mts" "t1" "t2" "t3" r
        (by decide) h
    refine ⟨r, rfl, s, st1, hsum, hrs, ?_, by decide⟩
    rw [hscope rfl]
    decide

theorem pad_recent_slice_eq (slice : List Message) :
    pad_recent_slice slice =
      List.replicate (5 - slice.length) placeholderMessage ++ slice := by
  generalize hn : 5 - slice.length = n
  induction n generalizing slice with
  | zero =>
    rw [pad_recent_slice, if_neg (by omega)]
    rfl
  | succ k ih =>
    rw [pad_recent_slice, if_pos (by omega)]
    rw [ih (placeholderMessage :: slice) (by simp only [List.length_cons]; omega)]
    rw [List.replicate_succ', List.append_assoc]
    rfl

theorem sortKeyLe_trans (a b c : Nat × Message) (hab : sortKeyLe a b = true)
    (hbc : sortKeyLe b c = true) : sortKeyLe a c = true := by
  unfold sortKeyLe at *
  by_cases h1 : (sort_key a).1 = (sort_key b).1 <;>
    by_cases h2 : (sort_key b).1 = (sort_key c).1
  · rw [if_pos h1] at hab
    rw [if_pos h2] at hbc
    rw [if_pos (h1.trans h2)]
    simp only [decide_eq_true_iff] at *
    omega
  · rw [if_neg (fun h => h2 (h1.symm.trans h))]
    rw [if_pos h1] at hab
    rw [if_neg h2] at hbc
    rw [h1]
    exact hbc
  · rw [if_neg (fun h => h1 (h.trans h2.symm))]
    rw [if_neg h1] at hab
    rw [if_pos h2] at hbc
    rw [← h2]
    exact hab
  · rw [if_neg h1] at hab
    rw [if_neg h2] at hbc
    simp only [decide_eq_true_iff] at hab hbc
    have hac : (sort_key a).1 < (sort_key c).1 := lt_trans hab hbc
    rw [if_neg (ne_of_lt hac)]
    simp only [decide_eq_true_iff]
    exact hac

theorem sortKeyLe_total (a b : Nat × Message) :
    (sortKeyLe a b || sortKeyLe b a) = true := by
  unfold sortKeyLe
  by_cases h : (sort_key a).1 = (sort_key b).1
  · rw [if_pos h, if_pos h.symm]
    simp only [decide_eq_true_iff, Bool.or_eq_true]
    omega
  · rw [if_neg h, if_neg (Ne.symm h)]
    simp only [decide_eq_true_iff, Bool.or_eq_true]
    exact lt_or_gt_of_ne h

/-- C6: the recent-messages slice of the assembled context.  With an
active record (`has_session_summary = true`) it always has exactly 5
entries: the last 5 raw-window messages when at least 5 exist, otherwise
the window left-padded with the placeholder entry (role `"(none)"`,
content `"(no earlier message)"`), preserving relative order.  Without an
active record it is the entire raw window reordered by the ascending
`(timestamp-prefix, original-position)` key, original position breaking
ties of missing/equal timestamps. -/
theorem recent_block_shape (recent : List Message) :
    ((recent_slice_of true recent).length = 5
      ∧ (5 ≤ recent.length →
          recent_slice_of true recent = recent.drop (recent.length - 5))
      ∧ (recent.length < 5 →
          recent_slice_of true recent =
            List.replicate (5 - recent.length) placeholderMessage ++ recent))
    ∧ (∃ idx : List (Nat × Message),
        List.Perm idx recent.enum
        ∧ List.Pairwise (fun a b => sortKeyLe a b = true) idx
        ∧ recent_slice_of false recent = idx.map Prod.snd
        ∧ List.Perm (recent_slice_of false recent) recent) := by
  have hlast : takeLastPy 5 recent = recent.drop (recent.length - 5) := by
    unfold takeLastPy
    rw [if_neg (by omega)]
  constructor
  · refine ⟨?_, ?_, ?_⟩
    · show (pad_recent_slice (takeLastPy 5 recent)).length = 5
      rw [pad_recent_slice_eq, hlast]
      simp only [List.length_append, List.length_replicate, List.length_drop]
      omega
    · intro h5
      show pad_recent_slice (takeLastPy 5 recent) = recent.drop (recent.length - 5)
      rw [pad_recent_slice_eq, hlast]
      have : (recent.drop (recent.length - 5)).length = 5 := by
        simp only [List.length_drop]; omega
      rw [this]
      simp
    · intro h5
      show pad_recent_slice (takeLastPy 5 recent) =
        List.replicate (5 - recent.length) placeholderMessage ++ recent
      have hall : recent.drop (recent.length - 5) = recent := by
        have : recent.length - 5 = 0 := by omega
        rw [this, List.drop_zero]
      rw [pad_recent_slice_eq, hlast, hall]
  · refine ⟨recent.enum.mergeSort sortKeyLe,
      List.mergeSort_perm recent.enum sortKeyLe,
      List.sorted_mergeSort sortKeyLe_trans sortKeyLe_total recent.enum,
      rfl, ?_⟩
    show List.Perm ((recent.enum.mergeSort sortKeyLe).map Prod.snd) recent
    have h1 : List.Perm ((recent.enum.mergeSort sortKeyLe).map Prod.snd)
        (recent.enum.map Prod.snd) :=
      (List.mergeSort_perm recent.enum sortKeyLe).map Prod.snd
    rw [List.enum_map_snd] at h1
    exact h1

/-- C6 witness: a 3-message raw window — the active-record slice is the
window left-padded with 2 placeholders (5 entries), and the no-record
slice is a key-sorted permutation of the window. -/
theorem recent_block_shape_witness :
    (([⟨"user", "a", some "t2"⟩, ⟨"assistant", "b", some "t1"⟩,
        ⟨"user", "c", none⟩] : List Message).length < 5)
    ∧ recent_slice_of true
        [⟨"user", "a", some "t2"⟩, ⟨"assistant", "b", some "t1"⟩,
          ⟨"user", "c", none⟩] =
      List.replicate 2 placeholderMessage ++
        [⟨"user", "a", some "t2"⟩, ⟨"assistant", "b", some "t1"⟩,
          ⟨"user", "c", none⟩]
    ∧ (recent_slice_of true
        [⟨"user", "a", some "t2"⟩, ⟨"assistant", "b", some "t1"⟩,
          ⟨"user", "c", none⟩]).length = 5 := by
  have h := recent_block_shape
    [⟨"user", "a", some "t2"⟩, ⟨"assistant", "b", some "t1"⟩, ⟨"user", "c", none⟩]
  exact ⟨by decide, h.1.2.2 (by decide), h.1.1⟩

/-- C7: for every input, `final_context` is exactly the four sections in
the fixed order query → conversation state → selected memory → recent
messages, blank-line separated with the fixed headers; an empty
selected-memory sequence renders the literal `"None."` and a missing
conversation state renders `"(none)"`.  (The only input-dependent part of
a header is the `" (last 5)"` suffix of the recent-messages label, fixed
by the active-record flag.) -/
theorem final_context_sections (query clarified_query : String)
    (ctx : Option ExportedMemory) (selected_memory : List String)
    (recent_messages : List Message) (has_session_summary : Bool)
    (clarifying_questions : List String) (is_ambiguous : Bool) :
    build_final_context query clarified_query ctx selected_memory
        recent_messages has_session_summary clarifying_questions is_ambiguous =
      query_section query clarified_query clarifying_questions is_ambiguous
        ++ "\n\n" ++ "CONVERSATION STATE:\n" ++ conversation_state_text ctx
        ++ "\n\n" ++ "SELECTED MEMORY:\n" ++ selected_memory_block selected_memory
        ++ "\n\n" ++ recent_messages_label has_session_summary ++ ":\n"
        ++ recent_messages_block has_session_summary recent_messages
    ∧ (selected_memory = [] → selected_memory_block selected_memory = "None.")
    ∧ (ctx = none → conversation_state_text ctx = "(none)") := by
  refine ⟨?_, ?_, ?_⟩
  · unfold build_final_context query_section conversation_state_text
      selected_memory_block recent_messages_label recent_messages_block
    rfl
  · intro h; rw [h]; rfl
  · intro h; rw [h]; rfl

/-- C7 witness: concrete inputs with an empty selected-memory list and no
active record — the assembled text shows the fixed section skeleton with
`None.` and `(none)`. -/
theorem final_context_sections_witness :
    build_final_context "q" "" none [] [] false [] false =
      query_section "q" "" [] false
        ++ "\n\n" ++ "CONVERSATION STATE:\n" ++ conversation_state_text none
        ++ "\n\n" ++ "SELECTED MEMORY:\n" ++ selected_memory_block []
        ++ "\n\n" ++ recent_messages_label false ++ ":\n"
        ++ recent_messages_block false []
    ∧ selected_memory_block ([] : List String) = "None."
    ∧ conversation_state_text none = "(none)" := by
  have h := final_context_sections "q" "" none [] [] false [] false
  exact ⟨h.1, h.2.1 rfl, h.2.2 rfl⟩

theorem scanStep_escape_clears (st : ScanState) (c : Char)
    (h : st.escape = true) :
    scanStep st c = { st with escape := false, acc := pushAcc st.acc c } := by
  unfold scanStep
  simp [h]

theorem scanStep_backslash (st : ScanState) (h : st.escape = false) :
    scanStep st '\\' = { st with escape := true, acc := pushAcc st.acc '\\' } := by
  unfold scanStep
  simp [h]

theorem scanStep_quote (st : ScanState) (h : st.escape = false) :
    scanStep st '"' =
      { st with in_string := !st.in_string, acc := pushAcc st.acc '"' } := by
  unfold scanStep
  simp [h]

theorem scanStep_instring (st : ScanState) (c : Char) (h1 : st.escape = false)
    (h2 : st.in_string = true) (h3 : c ≠ '\\') (h4 : c ≠ '"') :
    scanStep st c = { st with acc := pushAcc st.acc c } := by
  unfold scanStep
  simp [h1, h2, h3, h4]

theorem scanStep_plain (st : ScanState) (c : Char) (h1 : st.escape = false)
    (h2 : st.in_string = false) (h3 : c ≠ '\\') (h4 : c ≠ '"')
    (h5 : c ≠ lbrace) (h6 : c ≠ rbrace) :
    scanStep st c = { st with acc := pushAcc st.acc c } := by
  unfold scanStep
  simp [h1, h2, h3, h4, h5, h6]

theorem scanStep_open_at_zero (st : ScanState) (h1 : st.escape = false)
    (h2 : st.in_string = false) (h3 : st.depth = 0) :
    scanStep st lbrace = { st with depth := st.depth + 1, acc := some [lbrace] } := by
  unfold scanStep
  simp [h1, h2, h3, show lbrace ≠ '\\' by decide, show lbrace ≠ '"' by decide]

theorem scanStep_close_emit (st : ScanState) (a : List Char)
    (h1 : st.escape = false) (h2 : st.in_string = false) (h3 : st.depth = 1)
    (h4 : st.acc = some a) :
    scanStep st rbrace =
      { st with depth := 0, chunks := st.chunks ++ [a ++ [rbrace]], acc := none } := by
  unfold scanStep
  simp [h1, h2, h3, h4, show rbrace ≠ '\\' by decide, show rbrace ≠ '"' by decide,
    show rbrace ≠ lbrace by decide, show (1 : Int) - 1 = 0 by decide]

theorem scan_backslash_pair (x : Char) (st : ScanState) (a : List Char)
    (hesc : st.escape = false) (hacc : st.acc = some a) :
    List.foldl scanStep st ['\\', x] = { st with acc := some (a ++ ['\\', x]) } := by
  simp only [List.foldl_cons, List.foldl_nil]
  simp [scanStep, pushAcc, hesc, hacc]

theorem hexDigitChar_ne (n : Nat) (h : n < 16) :
    hexDigitChar n ≠ '\\' ∧ hexDigitChar n ≠ '"' := by
  revert n
  decide

theorem scan_escapeJsonChar (c : Char) (st : ScanState) (a : List Char)
    (hin : st.in_string = true) (hesc : st.escape = false)
    (hacc : st.acc = some a) :
    List.foldl scanStep st (escapeJsonChar c) =
      { st with acc := some (a ++ escapeJsonChar c) } := by
  unfold escapeJsonChar
  split_ifs with hq hbs hn ht hr hb hf hctrl
  · exact scan_backslash_pair _ st a hesc hacc
  · exact scan_backslash_pair _ st a hesc hacc
  · exact scan_backslash_pair _ st a hesc hacc
  · exact scan_backslash_pair _ st a hesc hacc
  · exact scan_backslash_pair _ st a hesc hacc
  · exact scan_backslash_pair _ st a hesc hacc
  · exact scan_backslash_pair _ st a hesc hacc
  · have hd1 := hexDigitChar_ne (c.toNat / 16) (by omega)
    have hd2 := hexDigitChar_ne (c.toNat % 16) (Nat.mod_lt _ (by omega))
    simp only [List.foldl_cons, List.foldl_nil]
    simp [scanStep, pushAcc, hesc, hin, hacc, hd1.1, hd1.2, hd2.1, hd2.2]
  · simp only [List.foldl_cons, List.foldl_nil]
    simp [scanStep, pushAcc, hesc, hin, hacc, hq, hbs]

theorem scan_escChars (s : List Char) (st : ScanState) (a : List Char)
    (hin : st.in_string = true) (hesc : st.escape = false)
    (hacc : st.acc = some a) :
    List.foldl scanStep st (escChars s) = { st with acc := some (a ++ escChars s) } := by
  induction s generalizing st a with
  | nil =>
    cases st
    simp_all [escChars]
  | cons c cs ih =>
    have hsplit : escChars (c :: cs) = escapeJsonChar c ++ escChars cs := by
      simp [escChars]
    rw [hsplit, List.foldl_append, scan_escapeJsonChar c st a hin hesc hacc]
    rw [ih { st with acc := some (a ++ escapeJsonChar c) }
      (a ++ escapeJsonChar c) hin hesc rfl]
    simp

theorem scan_jsonStringToken (s : String) (st : ScanState) (a : List Char)
    (hin : st.in_string = false) (hesc : st.escape = false)
    (hacc : st.acc = some a) :
    List.foldl scanStep st (jsonStringToken s) =
      { st with acc := some (a ++ jsonStringToken s) } := by
  show List.foldl scanStep st ('"' :: (escChars s.data ++ ['"'])) = _
  simp only [List.foldl_cons]
  rw [scanStep_quote st hesc]
  rw [List.foldl_append]
  rw [scan_escChars s.data
    { st with in_string := !st.in_string, acc := pushAcc st.acc '"' }
    (a ++ ['"']) (by simp [hin]) hesc (by simp [pushAcc, hacc])]
  simp only [List.foldl_cons, List.foldl_nil]
  rw [scanStep_quote
    { st with in_string := !st.in_string, acc := some ((a ++ ['"']) ++ escChars s.data) }
    hesc]
  cases st
  simp_all [pushAcc, jsonStringToken]

theorem scan_sep_space_token (c : Char) (s : String) (st : ScanState)
    (a : List Char) (hc1 : c ≠ '\\') (hc2 : c ≠ '"') (hc3 : c ≠ lbrace)
    (hc4 : c ≠ rbrace) (hin : st.in_string = false) (hesc : st.escape = false)
    (hacc : st.acc = some a) :
    List.foldl scanStep st (c :: ' ' :: jsonStringToken s) =
      { st with acc := some (a ++ (c :: ' ' :: jsonStringToken s)) } := by
  simp only [List.foldl_cons]
  rw [scanStep_plain st c hesc hin hc1 hc2 hc3 hc4]
  rw [show pushAcc st.acc c = some (a ++ [c]) by simp [pushAcc, hacc]]
  rw [scanStep_plain { st with acc := some (a ++ [c]) } ' ' hesc hin
    (by decide) (by decide) (by decide) (by decide)]
  rw [show pushAcc (some (a ++ [c])) ' ' = some (a ++ [c, ' ']) by simp [pushAcc]]
  rw [scan_jsonStringToken s { st with acc := some (a ++ [c, ' ']) }
    (a ++ [c, ' ']) hin hesc rfl]
  simp

theorem scan_entry_members (r : LogRecord) (st : ScanState) (a : List Char)
    (hin : st.in_string = false) (hesc : st.escape = false)
    (hacc : st.acc = some a) :
    List.foldl scanStep st
      (jsonStringToken "role" ++ (':' :: ' ' :: jsonStringToken r.role)
        ++ (',' :: ' ' :: jsonStringToken "content")
        ++ (':' :: ' ' :: jsonStringToken r.content)
        ++ (',' :: ' ' :: jsonStringToken "timestamp")
        ++ (':' :: ' ' :: jsonStringToken r.timestamp)) =
      { st with acc := some (a ++
        (jsonStringToken "role" ++ (':' :: ' ' :: jsonStringToken r.role)
          ++ (',' :: ' ' :: jsonStringToken "content")
          ++ (':' :: ' ' :: jsonStringToken r.content)
          ++ (',' :: ' ' :: jsonStringToken "timestamp")
          ++ (':' :: ' ' :: jsonStringToken r.timestamp))) } := by
  rw [List.foldl_append, List.foldl_append, List.foldl_append,
    List.foldl_append, List.foldl_append]
  rw [scan_jsonStringToken "role" st a hin hesc hacc]
  rw [scan_sep_space_token ':' r.role
    { st with acc := some (a ++ jsonStringToken "role") }
    (a ++ jsonStringToken "role") (by decide) (by decide) (by decide) (by decide)
    hin hesc rfl]
  rw [scan_sep_space_token ',' "content"
    { st with acc := some ((a ++ jsonStringToken "role") ++ (':' :: ' ' :: jsonStringToken r.role)) }
    ((a ++ jsonStringToken "role") ++ (':' :: ' ' :: jsonStringToken r.role))
    (by decide) (by decide) (by decide) (by decide) hin hesc rfl]
  rw [scan_sep_space_token ':' r.content
    { st with acc := some (((a ++ jsonStringToken "role") ++ (':' :: ' ' :: jsonStringToken r.role)) ++ (',' :: ' ' :: jsonStringToken "content")) }
    (((a ++ jsonStringToken "role") ++ (':' :: ' ' :: jsonStringToken r.role)) ++ (',' :: ' ' :: jsonStringToken "content"))
    (by decide) (by decide) (by decide) (by decide) hin hesc rfl]
  rw [scan_sep_space_token ',' "timestamp"
    { st with acc := some ((((a ++ jsonStringToken "role") ++ (':' :: ' ' :: jsonStringToken r.role)) ++ (',' :: ' ' :: jsonStringToken "content")) ++ (':' :: ' ' :: jsonStringToken r.content)) }
    ((((a ++ jsonStringToken "role") ++ (':' :: ' ' :: jsonStringToken r.role)) ++ (',' :: ' ' :: jsonStringToken "content")) ++ (':' :: ' ' :: jsonStringToken r.content))
    (by decide) (by decide) (by decide) (by decide) hin hesc rfl]
  rw [scan_sep_space_token ':' r.timestamp
    { st with acc := some (((((a ++ jsonStringToken "role") ++ (':' :: ' ' :: jsonStringToken r.role)) ++ (',' :: ' ' :: jsonStringToken "content")) ++ (':' :: ' ' :: jsonStringToken r.content)) ++ (',' :: ' ' :: jsonStringToken "timestamp")) }
    (((((a ++ jsonStringToken "role") ++ (':' :: ' ' :: jsonStringToken r.role)) ++ (',' :: ' ' :: jsonStringToken "content")) ++ (':' :: ' ' :: jsonStringToken r.content)) ++ (',' :: ' ' :: jsonStringToken "timestamp"))
    (by decide) (by decide) (by decide) (by decide) hin hesc rfl]
  simp [List.append_assoc]

/-- Scanning one serialized record from a neutral scanner state captures
exactly that record as one candidate span and returns to the neutral
state. -/
theorem scan_encodeEntry (r : LogRecord) (st : ScanState)
    (hd : st.depth = 0) (hin : st.in_string = false)
    (hesc : st.escape = false) (hacc : st.acc = none) :
    List.foldl scanStep st (encodeEntry r) =
      { st with chunks := st.chunks ++ [encodeEntry r] } := by
  show List.foldl scanStep st (encodeEntryInner r ++ [rbrace]) = _
  rw [List.foldl_append]
  show List.foldl scanStep
    (List.foldl scanStep st (lbrace ::
      (jsonStringToken "role" ++ (':' :: ' ' :: jsonStringToken r.role)
        ++ (',' :: ' ' :: jsonStringToken "content")
        ++ (':' :: ' ' :: jsonStringToken r.content)
        ++ (',' :: ' ' :: jsonStringToken "timestamp")
        ++ (':' :: ' ' :: jsonStringToken r.timestamp)))) [rbrace] = _
  simp only [List.foldl_cons]
  rw [scanStep_open_at_zero st hesc hin hd]
  rw [scan_entry_members r
    { st with depth := st.depth + 1, acc := some [lbrace] } [lbrace] hin hesc rfl]
  simp only [List.foldl_cons, List.foldl_nil]
  rw [scanStep_close_emit
    { st with depth := st.depth + 1, acc := some ([lbrace] ++
      (jsonStringToken "role" ++ (':' :: ' ' :: jsonStringToken r.role)
        ++ (',' :: ' ' :: jsonStringToken "content")
        ++ (':' :: ' ' :: jsonStringToken r.content)
        ++ (',' :: ' ' :: jsonStringToken "timestamp")
        ++ (':' :: ' ' :: jsonStringToken r.timestamp))) }
    ([lbrace] ++
      (jsonStringToken "role" ++ (':' :: ' ' :: jsonStringToken r.role)
        ++ (',' :: ' ' :: jsonStringToken "content")
        ++ (':' :: ' ' :: jsonStringToken r.content)
        ++ (',' :: ' ' :: jsonStringToken "timestamp")
        ++ (':' :: ' ' :: jsonStringToken r.timestamp)))
    hesc hin (by simp [hd]) rfl]
  cases st
  simp_all [encodeEntry, encodeEntryInner]

/-- A newline at a neutral scanner state is dropped. -/
theorem scan_newline_neutral (st : ScanState) (hin : st.in_string = false)
    (hesc : st.escape = false) (hacc : st.acc = none) :
    scanStep st '\n' = st := by
  rw [scanStep_plain st '\n' hesc hin (by decide) (by decide) (by decide) (by decide)]
  cases st
  simp_all [pushAcc]

/-- Scanning a whole logger-written transcript from a neutral state
captures exactly the serialized records, in order, and returns to the
neutral state. -/
theorem scan_encodeLog (records : List LogRecord) (st : ScanState)
    (hd : st.depth = 0) (hin : st.in_string = false)
    (hesc : st.escape = false) (hacc : st.acc = none) :
    List.foldl scanStep st (encodeLog records) =
      { st with chunks := st.chunks ++ records.map encodeEntry } := by
  induction records generalizing st with
  | nil =>
    cases st
    simp_all [encodeLog]
  | cons r rs ih =>
    have hsplit : encodeLog (r :: rs) = (encodeEntry r ++ ['\n']) ++ encodeLog rs := by
      simp [encodeLog]
    rw [hsplit, List.foldl_append, List.foldl_append]
    rw [scan_encodeEntry r st hd hin hesc hacc]
    simp only [List.foldl_cons, List.foldl_nil]
    rw [scan_newline_neutral { st with chunks := st.chunks ++ [encodeEntry r] }
      hin hesc hacc]
    rw [ih { st with chunks := st.chunks ++ [encodeEntry r] } hd hin hesc hacc]
    simp

theorem hexDigitVal_hexDigitChar (n : Nat) (h : n < 16) :
    hexDigitVal (hexDigitChar n) = some n := by
  revert n
  decide

theorem escapeJsonChar_ge32 (c : Char) (d : Char) (hd : d ∈ escapeJsonChar c) :
    32 ≤ d.toNat := by
  unfold escapeJsonChar at hd
  split_ifs at hd with hq hbs hn ht hr hb hf hctrl
  all_goals try
    (simp only [List.mem_cons, List.not_mem_nil, or_false] at hd
     rcases hd with rfl | rfl
     · decide
     · decide)
  · simp only [List.mem_cons, List.not_mem_nil, or_false] at hd
    have h16a : c.toNat / 16 < 16 := by omega
    have h16b : c.toNat % 16 < 16 := Nat.mod_lt _ (by omega)
    have hhex : ∀ n : Nat, n < 16 → 32 ≤ (hexDigitChar n).toNat := by decide
    rcases hd with h | h | h | h | h | h <;> subst h
    · decide
    · decide
    · decide
    · decide
    · exact hhex _ h16a
    · exact hhex _ h16b
  · simp only [List.mem_cons, List.not_mem_nil, or_false] at hd
    subst hd
    omega

theorem sanitize_id_of_ge32 (cs : List Char) (h : ∀ c ∈ cs, 32 ≤ c.toNat) :
    sanitizeChunk cs = cs := by
  unfold sanitizeChunk
  induction cs with
  | nil => rfl
  | cons c rest ih =>
    simp only [List.map_cons]
    rw [if_neg (by have := h c (by simp); omega)]
    rw [ih (fun d hd => h d (by simp [hd]))]

theorem escChars_ge32 (s : List Char) (d : Char) (hd : d ∈ escChars s) :
    32 ≤ d.toNat := by
  unfold escChars at hd
  rw [List.mem_flatMap] at hd
  obtain ⟨c, -, hdc⟩ := hd
  exact escapeJsonChar_ge32 c d hdc

theorem jsonStringToken_ge32 (s : String) (d : Char)
    (hd : d ∈ jsonStringToken s) : 32 ≤ d.toNat := by
  unfold jsonStringToken at hd
  simp only [List.mem_cons, List.mem_append, List.not_mem_nil] at hd
  rcases hd with rfl | h | h
  · decide
  · exact escChars_ge32 _ d h
  · simp only [List.mem_cons, List.not_mem_nil, or_false] at h
    subst h
    decide

theorem encodeEntry_ge32 (r : LogRecord) (d : Char)
    (hd : d ∈ encodeEntry r) : 32 ≤ d.toNat := by
  unfold encodeEntry encodeEntryInner at hd
  simp only [List.mem_append, List.mem_cons, List.not_mem_nil, or_false] at hd
  rcases hd with (rfl | h) | rfl
  · decide
  · rcases h with ((((h | h) | h) | h) | h) | h
    · exact jsonStringToken_ge32 _ d h
    · rcases h with rfl | rfl | h
      · decide
      · decide
      · exact jsonStringToken_ge32 _ d h
    · rcases h with rfl | rfl | h
      · decide
      · decide
      · exact jsonStringToken_ge32 _ d h
    · rcases h with rfl | rfl | h
      · decide
      · decide
      · exact jsonStringToken_ge32 _ d h
    · rcases h with rfl | rfl | h
      · decide
      · decide
      · exact jsonStringToken_ge32 _ d h
    · rcases h with rfl | rfl | h
      · decide
      · decide
      · exact jsonStringToken_ge32 _ d h
  · decide

theorem sanitize_encodeEntry (r : LogRecord) :
    sanitizeChunk (encodeEntry r) = encodeEntry r :=
  sanitize_id_of_ge32 _ (encodeEntry_ge32 r)

theorem parseStringBody_escChars (s : List Char) (rest : List Char) :
    parseStringBody (escChars s ++ '"' :: rest) = some (s, rest) := by
  induction s with
  | nil =>
    show parseStringBody ('"' :: rest) = some ([], rest)
    rw [parseStringBody.eq_def]
    simp
  | cons c cs ih =>
    have hsplit : escChars (c :: cs) ++ '"' :: rest =
        escapeJsonChar c ++ (escChars cs ++ '"' :: rest) := by
      simp [escChars]
    rw [hsplit]
    unfold escapeJsonChar
    split_ifs with hq hbs hn ht hr hb hf hctrl
    · subst hq; rw [parseStringBody.eq_def]; simp [unescapeChar, ih]
    · subst hbs; rw [parseStringBody.eq_def]; simp [unescapeChar, ih]
    · subst hn; rw [parseStringBody.eq_def]; simp [unescapeChar, ih]
    · subst ht; rw [parseStringBody.eq_def]; simp [unescapeChar, ih]
    · subst hr; rw [parseStringBody.eq_def]; simp [unescapeChar, ih]
    · subst hb; rw [parseStringBody.eq_def]; simp [unescapeChar, ih]
    · subst hf; rw [parseStringBody.eq_def]; simp [unescapeChar, ih]
    · show parseStringBody ('\\' :: 'u' :: '0' :: '0' ::
        hexDigitChar (c.toNat / 16) :: hexDigitChar (c.toNat % 16) ::
        (escChars cs ++ '"' :: rest)) = some (c :: cs, rest)
      have hv1 : hexDigitVal (hexDigitChar (c.toNat / 16)) = some (c.toNat / 16) :=
        hexDigitVal_hexDigitChar _ (by omega)
      have hv2 : hexDigitVal (hexDigitChar (c.toNat % 16)) = some (c.toNat % 16) :=
        hexDigitVal_hexDigitChar _ (Nat.mod_lt _ (by omega))
      have hzero : hexDigitVal '0' = some 0 := by decide
      have hnum : c.toNat / 16 * 16 + c.toNat % 16 = c.toNat := by omega
      rw [parseStringBody.eq_def]
      simp [hv1, hv2, hzero, ih, hnum, Char.ofNat_toNat]
    · show parseStringBody (c :: (escChars cs ++ '"' :: rest)) = some (c :: cs, rest)
      rw [parseStringBody.eq_def]
      simp [hq, hbs, hctrl, ih]

theorem parseJsonString_token (s : String) (rest : List Char) :
    parseJsonString (jsonStringToken s ++ rest) = some (s.data, rest) := by
  show parseJsonString ('"' :: (escChars s.data ++ ['"']) ++ rest) = some (s.data, rest)
  unfold parseJsonString
  simp only [List.cons_append, List.append_assoc, List.cons_append, List.nil_append]
  simp [parseStringBody_escChars]

theorem skipWs_not_ws (c : Char) (rest : List Char) (h : isJsonWs c = false) :
    skipWs (c :: rest) = c :: rest := by
  unfold skipWs
  simp [h]

theorem skipWs_token (s : String) (rest : List Char) :
    skipWs (jsonStringToken s ++ rest) = jsonStringToken s ++ rest := by
  show skipWs ('"' :: (escChars s.data ++ ['"']) ++ rest) = _
  exact skipWs_not_ws '"' _ (by decide)

theorem parseMember_skeleton (k v : String) (rest : List Char) :
    parseMember (jsonStringToken k ++ (':' :: ' ' :: (jsonStringToken v ++ rest))) =
      some ((k, v), rest) := by
  have h1 : skipWs (':' :: ' ' :: (jsonStringToken v ++ rest)) =
      ':' :: ' ' :: (jsonStringToken v ++ rest) :=
    skipWs_not_ws ':' _ (by decide)
  have h2 : skipWs (' ' :: (jsonStringToken v ++ rest)) =
      skipWs (jsonStringToken v ++ rest) := by
    conv_lhs => rw [skipWs]
    simp [isJsonWs]
  have h3 : (⟨k.data⟩ : String) = k := rfl
  have h4 : (⟨v.data⟩ : String) = v := rfl
  simp [parseMember, skipWs_token, parseJsonString_token, h1, h2, h3, h4]

theorem parseMember_skip_space (cs : List Char) :
    parseMember (' ' :: cs) = parseMember cs := by
  unfold parseMember
  conv_lhs => rw [skipWs]
  simp [isJsonWs]

theorem parseMembers_entry (r : LogRecord) (fuel : Nat) :
    parseMembers (fuel + 3)
      (jsonStringToken "role" ++ (':' :: ' ' :: (jsonStringToken r.role ++
        (',' :: ' ' :: (jsonStringToken "content" ++ (':' :: ' ' ::
          (jsonStringToken r.content ++ (',' :: ' ' ::
            (jsonStringToken "timestamp" ++ (':' :: ' ' ::
              (jsonStringToken r.timestamp ++ [rbrace]))))))))))) =
      some ([("role", r.role), ("content", r.content),
             ("timestamp", r.timestamp)], []) := by
  have hcomma : isJsonWs ',' = false := by decide
  have hrb : isJsonWs rbrace = false := by decide
  simp [parseMembers, parseMember_skeleton, parseMember_skip_space,
    skipWs_not_ws _ _ hcomma, skipWs_not_ws _ _ hrb,
    (by decide : ¬ (rbrace = ','))]

theorem parseMembers_entry_ge (r : LogRecord) (fuel : Nat) (hf : 3 ≤ fuel) :
    parseMembers fuel
      (jsonStringToken "role" ++ (':' :: ' ' :: (jsonStringToken r.role ++
        (',' :: ' ' :: (jsonStringToken "content" ++ (':' :: ' ' ::
          (jsonStringToken r.content ++ (',' :: ' ' ::
            (jsonStringToken "timestamp" ++ (':' :: ' ' ::
              (jsonStringToken r.timestamp ++ [rbrace]))))))))))) =
      some ([("role", r.role), ("content", r.content),
             ("timestamp", r.timestamp)], []) := by
  obtain ⟨k, rfl⟩ : ∃ k, fuel = k + 3 := ⟨fuel - 3, by omega⟩
  exact parseMembers_entry r k

theorem jsonStringToken_length (s : String) : 2 ≤ (jsonStringToken s).length := by
  show 2 ≤ ('"' :: (escChars s.data ++ ['"'])).length
  simp

theorem encodeEntry_normal (r : LogRecord) :
    encodeEntry r = lbrace ::
      (jsonStringToken "role" ++ (':' :: ' ' :: (jsonStringToken r.role ++
        (',' :: ' ' :: (jsonStringToken "content" ++ (':' :: ' ' ::
          (jsonStringToken r.content ++ (',' :: ' ' ::
            (jsonStringToken "timestamp" ++ (':' :: ' ' ::
              (jsonStringToken r.timestamp ++ [rbrace]))))))))))) := by
  simp [encodeEntry, encodeEntryInner, List.append_assoc]

theorem json_loads_encodeEntry (r : LogRecord) :
    json_loads_record (encodeEntry r) =
      some [("role", r.role), ("content", r.content),
            ("timestamp", r.timestamp)] := by
  rw [encodeEntry_normal]
  have h0 : skipWs (lbrace ::
      (jsonStringToken "role" ++ (':' :: ' ' :: (jsonStringToken r.role ++
        (',' :: ' ' :: (jsonStringToken "content" ++ (':' :: ' ' ::
          (jsonStringToken r.content ++ (',' :: ' ' ::
            (jsonStringToken "timestamp" ++ (':' :: ' ' ::
              (jsonStringToken r.timestamp ++ [rbrace])))))))))))) =
      lbrace ::
      (jsonStringToken "role" ++ (':' :: ' ' :: (jsonStringToken r.role ++
        (',' :: ' ' :: (jsonStringToken "content" ++ (':' :: ' ' ::
          (jsonStringToken r.content ++ (',' :: ' ' ::
            (jsonStringToken "timestamp" ++ (':' :: ' ' ::
              (jsonStringToken r.timestamp ++ [rbrace]))))))))))) :=
    skipWs_not_ws lbrace _ (by decide)
  have hskip := skipWs_token "role"
    (':' :: ' ' :: (jsonStringToken r.role ++
      (',' :: ' ' :: (jsonStringToken "content" ++ (':' :: ' ' ::
        (jsonStringToken r.content ++ (',' :: ' ' ::
          (jsonStringToken "timestamp" ++ (':' :: ' ' ::
            (jsonStringToken r.timestamp ++ [rbrace]))))))))))
  have hlen : 2 ≤ (jsonStringToken "role" ++ (':' :: ' ' :: (jsonStringToken r.role ++
      (',' :: ' ' :: (jsonStringToken "content" ++ (':' :: ' ' ::
        (jsonStringToken r.content ++ (',' :: ' ' ::
          (jsonStringToken "timestamp" ++ (':' :: ' ' ::
            (jsonStringToken r.timestamp ++ [rbrace]))))))))))).length := by
    rw [List.length_append]
    have := jsonStringToken_length "role"
    omega
  unfold json_loads_record
  rw [h0]
  simp only []
  rw [if_pos trivial, hskip]
  rw [parseMembers_entry_ge r _ (by omega)]
  simp only [jsonStringToken, List.cons_append]
  simp [(by decide : ¬ (('"' : Char) = rbrace))]
  rfl

theorem dictGet_entry (v1 v2 v3 : String) :
    dictGet [("role", v1), ("content", v2), ("timestamp", v3)] "role" = some v1
    ∧ dictGet [("role", v1), ("content", v2), ("timestamp", v3)] "content" = some v2
    ∧ dictGet [("role", v1), ("content", v2), ("timestamp", v3)] "timestamp" = some v3 := by
  refine ⟨?_, ?_, ?_⟩ <;> simp [dictGet]

theorem loadChunkStep_encodeEntry (now : String) (r : LogRecord)
    (m : SessionMemoryManager) (l s : Nat) :
    loadChunkStep now (m, l, s) (encodeEntry r) =
      ({ m with conversation_history :=
          m.conversation_history ++ [loggedMessage r now] }, l + 1, s) := by
  unfold loadChunkStep
  rw [sanitize_encodeEntry, json_loads_encodeEntry]
  simp only [(dictGet_entry r.role r.content r.timestamp).1,
    (dictGet_entry r.role r.content r.timestamp).2.1,
    (dictGet_entry r.role r.content r.timestamp).2.2]
  simp [add_message, loggedMessage]

theorem load_fold_entries (records : List LogRecord) (now : String)
    (m : SessionMemoryManager) (l s : Nat) :
    List.foldl (loadChunkStep now) (m, l, s) (records.map encodeEntry) =
      ({ m with conversation_history :=
          m.conversation_history ++ records.map (fun r => loggedMessage r now) },
        l + records.length, s) := by
  induction records generalizing m l with
  | nil => cases m; simp
  | cons r rs ih =>
    simp only [List.map_cons, List.foldl_cons]
    rw [loadChunkStep_encodeEntry]
    rw [ih]
    simp only [List.map_cons, List.length_cons, Prod.mk.injEq]
    refine ⟨?_, by omega, trivial⟩
    simp [List.append_assoc]

theorem scan_injectedContentToken (c1 c2 : String) (st : ScanState)
    (a : List Char) (hin : st.in_string = false) (hesc : st.escape = false)
    (hacc : st.acc = some a) :
    List.foldl scanStep st (injectedContentToken c1 c2) =
      { st with acc := some (a ++ injectedContentToken c1 c2) } := by
  show List.foldl scanStep st
    ('"' :: (escChars c1.data ++ '\n' :: (escChars c2.data ++ ['"']))) = _
  simp only [List.foldl_cons]
  rw [scanStep_quote st hesc]
  rw [List.foldl_append]
  rw [scan_escChars c1.data
    { st with in_string := !st.in_string, acc := pushAcc st.acc '"' }
    (a ++ ['"']) (by simp [hin]) hesc (by simp [pushAcc, hacc])]
  simp only [List.foldl_cons]
  rw [scanStep_instring
    { st with in_string := !st.in_string, acc := some ((a ++ ['"']) ++ escChars c1.data) }
    '\n' hesc (by simp [hin]) (by decide) (by decide)]
  rw [List.foldl_append]
  rw [scan_escChars c2.data
    { st with in_string := !st.in_string, acc := pushAcc (some ((a ++ ['"']) ++ escChars c1.data)) '\n' }
    (((a ++ ['"']) ++ escChars c1.data) ++ ['\n']) (by simp [hin]) hesc (by simp [pushAcc])]
  simp only [List.foldl_cons, List.foldl_nil]
  rw [scanStep_quote
    { st with in_string := !st.in_string, acc := some ((((a ++ ['"']) ++ escChars c1.data) ++ ['\n']) ++ escChars c2.data) }
    hesc]
  cases st
  simp_all [pushAcc, injectedContentToken]

theorem scan_sep_space_gen (c : Char) (T : List Char) (st : ScanState)
    (a : List Char) (hc1 : c ≠ '\\') (hc2 : c ≠ '"') (hc3 : c ≠ lbrace)
    (hc4 : c ≠ rbrace) (hin : st.in_string = false) (hesc : st.escape = false)
    (hacc : st.acc = some a)
    (hT : ∀ (st' : ScanState) (a' : List Char), st'.in_string = false →
      st'.escape = false → st'.acc = some a' →
      List.foldl scanStep st' T = { st' with acc := some (a' ++ T) }) :
    List.foldl scanStep st (c :: ' ' :: T) =
      { st with acc := some (a ++ (c :: ' ' :: T)) } := by
  simp only [List.foldl_cons]
  rw [scanStep_plain st c hesc hin hc1 hc2 hc3 hc4]
  rw [show pushAcc st.acc c = some (a ++ [c]) by simp [pushAcc, hacc]]
  rw [scanStep_plain { st with acc := some (a ++ [c]) } ' ' hesc hin
    (by decide) (by decide) (by decide) (by decide)]
  rw [show pushAcc (some (a ++ [c])) ' ' = some (a ++ [c, ' ']) by simp [pushAcc]]
  rw [hT { st with acc := some (a ++ [c, ' ']) } (a ++ [c, ' ']) hin hesc rfl]
  simp

theorem scan_injected_members (role_s c1 c2 ts_s : String) (st : ScanState)
    (a : List Char) (hin : st.in_string = false) (hesc : st.escape = false)
    (hacc : st.acc = some a) :
    List.foldl scanStep st
      (jsonStringToken "role" ++ (':' :: ' ' :: jsonStringToken role_s)
        ++ (',' :: ' ' :: jsonStringToken "content")
        ++ (':' :: ' ' :: injectedContentToken c1 c2)
        ++ (',' :: ' ' :: jsonStringToken "timestamp")
        ++ (':' :: ' ' :: jsonStringToken ts_s)) =
      { st with acc := some (a ++
        (jsonStringToken "role" ++ (':' :: ' ' :: jsonStringToken role_s)
          ++ (',' :: ' ' :: jsonStringToken "content")
          ++ (':' :: ' ' :: injectedContentToken c1 c2)
          ++ (',' :: ' ' :: jsonStringToken "timestamp")
          ++ (':' :: ' ' :: jsonStringToken ts_s))) } := by
  rw [List.foldl_append, List.foldl_append, List.foldl_append,
    List.foldl_append, List.foldl_append]
  rw [scan_jsonStringToken "role" st a hin hesc hacc]
  rw [scan_sep_space_token ':' role_s
    { st with acc := some (a ++ jsonStringToken "role") }
    (a ++ jsonStringToken "role") (by decide) (by decide) (by decide) (by decide)
    hin hesc rfl]
  rw [scan_sep_space_token ',' "content"
    { st with acc := some ((a ++ jsonStringToken "role") ++ (':' :: ' ' :: jsonStringToken role_s)) }
    ((a ++ jsonStringToken "role") ++ (':' :: ' ' :: jsonStringToken role_s))
    (by decide) (by decide) (by decide) (by decide) hin hesc rfl]
  rw [scan_sep_space_gen ':' (injectedContentToken c1 c2)
    { st with acc := some (((a ++ jsonStringToken "role") ++ (':' :: ' ' :: jsonStringToken role_s)) ++ (',' :: ' ' :: jsonStringToken "content")) }
    (((a ++ jsonStringToken "role") ++ (':' :: ' ' :: jsonStringToken role_s)) ++ (',' :: ' ' :: jsonStringToken "content"))
    (by decide) (by decide) (by decide) (by decide) hin hesc rfl
    (fun st' a' h1 h2 h3 => scan_injectedContentToken c1 c2 st' a' h1 h2 h3)]
  rw [scan_sep_space_token ',' "timestamp"
    { st with acc := some ((((a ++ jsonStringToken "role") ++ (':' :: ' ' :: jsonStringToken role_s)) ++ (',' :: ' ' :: jsonStringToken "content")) ++ (':' :: ' ' :: injectedContentToken c1 c2)) }
    ((((a ++ jsonStringToken "role") ++ (':' :: ' ' :: jsonStringToken role_s)) ++ (',' :: ' ' :: jsonStringToken "content")) ++ (':' :: ' ' :: injectedContentToken c1 c2))
    (by decide) (by decide) (by decide) (by decide) hin hesc rfl]
  rw [scan_sep_space_token ':' ts_s
    { st with acc := some (((((a ++ jsonStringToken "role") ++ (':' :: ' ' :: jsonStringToken role_s)) ++ (',' :: ' ' :: jsonStringToken "content")) ++ (':' :: ' ' :: injectedContentToken c1 c2)) ++ (',' :: ' ' :: jsonStringToken "timestamp")) }
    (((((a ++ jsonStringToken "role") ++ (':' :: ' ' :: jsonStringToken role_s)) ++ (',' :: ' ' :: jsonStringToken "content")) ++ (':' :: ' ' :: injectedContentToken c1 c2)) ++ (',' :: ' ' :: jsonStringToken "timestamp"))
    (by decide) (by decide) (by decide) (by decide) hin hesc rfl]
  simp [List.append_assoc]

/-- Scanning the injected record still captures it as exactly one
candidate span: the raw newline sits inside the quoted string, where the
scanner's in-string flag ignores it. -/
theorem scan_encodeEntryInjected (role c1 c2 ts : String) (st : ScanState)
    (hd : st.depth = 0) (hin : st.in_string = false)
    (hesc : st.escape = false) (hacc : st.acc = none) :
    List.foldl scanStep st (encodeEntryInjected role c1 c2 ts) =
      { st with chunks := st.chunks ++ [encodeEntryInjected role c1 c2 ts] } := by
  show List.foldl scanStep st
    ((lbrace :: (jsonStringToken "role" ++ (':' :: ' ' :: jsonStringToken role)
      ++ (',' :: ' ' :: jsonStringToken "content")
      ++ (':' :: ' ' :: injectedContentToken c1 c2)
      ++ (',' :: ' ' :: jsonStringToken "timestamp")
      ++ (':' :: ' ' :: jsonStringToken ts))) ++ [rbrace]) = _
  rw [List.foldl_append]
  simp only [List.foldl_cons]
  rw [scanStep_open_at_zero st hesc hin hd]
  rw [scan_injected_members role c1 c2 ts
    { st with depth := st.depth + 1, acc := some [lbrace] } [lbrace] hin hesc rfl]
  simp only [List.foldl_cons, List.foldl_nil]
  rw [scanStep_close_emit
    { st with depth := st.depth + 1, acc := some ([lbrace] ++
      (jsonStringToken "role" ++ (':' :: ' ' :: jsonStringToken role)
        ++ (',' :: ' ' :: jsonStringToken "content")
        ++ (':' :: ' ' :: injectedContentToken c1 c2)
        ++ (',' :: ' ' :: jsonStringToken "timestamp")
        ++ (':' :: ' ' :: jsonStringToken ts))) }
    ([lbrace] ++
      (jsonStringToken "role" ++ (':' :: ' ' :: jsonStringToken role)
        ++ (',' :: ' ' :: jsonStringToken "content")
        ++ (':' :: ' ' :: injectedContentToken c1 c2)
        ++ (',' :: ' ' :: jsonStringToken "timestamp")
        ++ (':' :: ' ' :: jsonStringToken ts)))
    hesc hin (by simp [hd]) rfl]
  cases st
  simp_all [encodeEntryInjected]

theorem sanitize_token (s : String) :
    sanitizeChunk (jsonStringToken s) = jsonStringToken s :=
  sanitize_id_of_ge32 _ (jsonStringToken_ge32 s)

theorem sanitize_escChars (d : List Char) :
    sanitizeChunk (escChars d) = escChars d :=
  sanitize_id_of_ge32 _ (escChars_ge32 d)

theorem jsonStringToken_injected (c1 c2 : String) :
    jsonStringToken (c1 ++ " " ++ c2) =
      '"' :: (escChars c1.data ++ ' ' :: (escChars c2.data ++ ['"'])) := by
  show '"' :: (escChars ((c1 ++ " " ++ c2).data) ++ ['"']) = _
  rw [String.data_append, String.data_append]
  show '"' :: (escChars ((c1.data ++ [' ']) ++ c2.data) ++ ['"']) = _
  unfold escChars
  rw [List.flatMap_append, List.flatMap_append]
  simp [List.append_assoc, escapeJsonChar]

/-- Sanitizing the injected span replaces the raw newline with a single
space and nothing else, yielding exactly the well-formed serialization of
the record whose content has the newline replaced. -/
theorem sanitize_encodeEntryInjected (role c1 c2 ts : String) :
    sanitizeChunk (encodeEntryInjected role c1 c2 ts) =
      encodeEntry ⟨role, c1 ++ " " ++ c2, ts⟩ := by
  show sanitizeChunk
    ((lbrace :: (jsonStringToken "role" ++ (':' :: ' ' :: jsonStringToken role)
      ++ (',' :: ' ' :: jsonStringToken "content")
      ++ (':' :: ' ' :: injectedContentToken c1 c2)
      ++ (',' :: ' ' :: jsonStringToken "timestamp")
      ++ (':' :: ' ' :: jsonStringToken ts))) ++ [rbrace]) =
    (lbrace :: (jsonStringToken "role" ++ (':' :: ' ' :: jsonStringToken role)
      ++ (',' :: ' ' :: jsonStringToken "content")
      ++ (':' :: ' ' :: jsonStringToken (c1 ++ " " ++ c2))
      ++ (',' :: ' ' :: jsonStringToken "timestamp")
      ++ (':' :: ' ' :: jsonStringToken ts))) ++ [rbrace]
  rw [jsonStringToken_injected]
  unfold sanitizeChunk injectedContentToken
  simp only [List.map_append, List.map_cons, List.map_nil]
  have hesc1 := sanitize_escChars c1.data
  have hesc2 := sanitize_escChars c2.data
  have htok1 := sanitize_token "role"
  have htok2 := sanitize_token "content"
  have htok3 := sanitize_token "timestamp"
  have htokr := sanitize_token role
  have htokt := sanitize_token ts
  unfold sanitizeChunk at hesc1 hesc2 htok1 htok2 htok3 htokr htokt
  rw [hesc1, hesc2, htok1, htok2, htok3, htokr, htokt]
  norm_num
  refine ⟨by decide, by decide, by decide, by decide, by decide, by decide,
    by decide, by decide, by decide, by decide⟩

theorem loadChunkStep_injected (now : String) (role c1 c2 ts : String)
    (m : SessionMemoryManager) (l s : Nat) :
    loadChunkStep now (m, l, s) (encodeEntryInjected role c1 c2 ts) =
      ({ m with conversation_history := m.conversation_history ++
          [loggedMessage ⟨role, c1 ++ " " ++ c2, ts⟩ now] }, l + 1, s) := by
  unfold loadChunkStep
  rw [sanitize_encodeEntryInjected, json_loads_encodeEntry ⟨role, c1 ++ " " ++ c2, ts⟩]
  simp only [(dictGet_entry role (c1 ++ " " ++ c2) ts).1,
    (dictGet_entry role (c1 ++ " " ++ c2) ts).2.1,
    (dictGet_entry role (c1 ++ " " ++ c2) ts).2.2]
  simp [add_message, loggedMessage]

theorem scan_injected_log (rs1 rs2 : List LogRecord) (role c1 c2 ts : String) :
    scanText (encodeLog rs1 ++ ((encodeEntryInjected role c1 c2 ts) ++ ['\n'])
        ++ encodeLog rs2) =
      { scanInit with chunks := rs1.map encodeEntry
          ++ [encodeEntryInjected role c1 c2 ts] ++ rs2.map encodeEntry } := by
  unfold scanText
  rw [List.foldl_append, List.foldl_append, List.foldl_append]
  rw [scan_encodeLog rs1 scanInit rfl rfl rfl rfl]
  rw [scan_encodeEntryInjected role c1 c2 ts
    { scanInit with chunks := scanInit.chunks ++ rs1.map encodeEntry }
    rfl rfl rfl rfl]
  simp only [List.foldl_cons, List.foldl_nil]
  rw [scan_newline_neutral
    { scanInit with chunks := (scanInit.chunks ++ rs1.map encodeEntry)
        ++ [encodeEntryInjected role c1 c2 ts] } rfl rfl rfl]
  rw [scan_encodeLog rs2
    { scanInit with chunks := (scanInit.chunks ++ rs1.map encodeEntry)
        ++ [encodeEntryInjected role c1 c2 ts] } rfl rfl rfl rfl]
  simp [scanInit, List.append_assoc]

theorem pyOrStr_some_ne (s b : String) (h : s ≠ "") :
    pyOrStr (some s) b = s := by
  unfold pyOrStr
  simp [h]

theorem load_encodeLog (records : List LogRecord) (m : SessionMemoryManager)
    (now : String) :
    load_conversation_log m (encodeLog records) now =
      ⟨{ m with conversation_history := m.conversation_history ++
          records.map (fun r => loggedMessage r now) },
        false, 0, decide (records.length = 0)⟩ := by
  unfold load_conversation_log
  rw [show scanText (encodeLog records) =
      { scanInit with chunks := scanInit.chunks ++ records.map encodeEntry } from
    scan_encodeLog records scanInit rfl rfl rfl rfl]
  simp only [scanInit, List.nil_append]
  simp only [show List.foldl (loadChunkStep now) (m, 0, 0) (records.map encodeEntry) =
      ({ m with conversation_history := m.conversation_history ++
          records.map (fun r => loggedMessage r now) }, 0 + records.length, 0) from
    load_fold_entries records now m 0 0]
  simp

/-- C8: parser round trip.  Encoding `N` records one per line with the
logger and parsing the file back with the tolerant JSONL loader appends
exactly `N` messages in the same order, with no warnings; under the
well-formedness condition that written timestamps are non-empty they are
identical in role, content and timestamp.  Injecting one literal newline
inside one record's content in the raw file still yields exactly `N`
records (the newline becomes a single space before decoding, by the
control-character sanitization). -/
theorem jsonl_log_round_trip (records : List LogRecord)
    (m : SessionMemoryManager) (now : String) :
    ((load_conversation_log m (encodeLog records) now).state.conversation_history =
        m.conversation_history ++ records.map (fun r => loggedMessage r now)
      ∧ (load_conversation_log m (encodeLog records) now).unbalanced_warning = false
      ∧ (load_conversation_log m (encodeLog records) now).skipped_count = 0)
    ∧ ((∀ r ∈ records, r.timestamp ≠ "") →
        records.map (fun r => loggedMessage r now) =
          records.map (fun r => (⟨r.role, r.content, some r.timestamp⟩ : Message)))
    ∧ (∀ (rs1 rs2 : List LogRecord) (role c1 c2 ts : String),
        (load_conversation_log m
            (encodeLog rs1 ++ ((encodeEntryInjected role c1 c2 ts) ++ ['\n'])
              ++ encodeLog rs2) now).state.conversation_history =
          (m.conversation_history ++ rs1.map (fun r => loggedMessage r now))
            ++ ([loggedMessage ⟨role, c1 ++ " " ++ c2, ts⟩ now]
              ++ rs2.map (fun r => loggedMessage r now))) := by
  refine ⟨?_, ?_, ?_⟩
  · rw [load_encodeLog]
    exact ⟨rfl, rfl, rfl⟩
  · intro hts
    induction records with
    | nil => rfl
    | cons r rs ih =>
      simp only [List.map_cons, List.cons.injEq]
      constructor
      · unfold loggedMessage
        rw [pyOrStr_some_ne r.timestamp now (hts r (by simp))]
      · exact ih (fun x hx => hts x (by simp [hx]))
  · intro rs1 rs2 role c1 c2 ts
    unfold load_conversation_log
    rw [scan_injected_log rs1 rs2 role c1 c2 ts]
    simp only [scanInit]
    rw [List.foldl_append, List.foldl_append]
    rw [show List.foldl (loadChunkStep now) (m, 0, 0) (rs1.map encodeEntry) =
        ({ m with conversation_history := m.conversation_history ++
            rs1.map (fun r => loggedMessage r now) }, 0 + rs1.length, 0) from
      load_fold_entries rs1 now m 0 0]
    simp only [List.foldl_cons, List.foldl_nil]
    rw [loadChunkStep_injected now role c1 c2 ts _ _ _]
    rw [show List.foldl (loadChunkStep now)
        ({ m with conversation_history := (m.conversation_history ++
            rs1.map (fun r => loggedMessage r now)) ++
            [loggedMessage ⟨role, c1 ++ " " ++ c2, ts⟩ now] },
          0 + rs1.length + 1, 0) (rs2.map encodeEntry) =
        ({ m with conversation_history := ((m.conversation_history ++
            rs1.map (fun r => loggedMessage r now)) ++
            [loggedMessage ⟨role, c1 ++ " " ++ c2, ts⟩ now]) ++
            rs2.map (fun r => loggedMessage r now) },
          0 + rs1.length + 1 + rs2.length, 0) from
      load_fold_entries rs2 now _ _ 0]
    simp [List.append_assoc]

/-- C8 witness: two concrete records (one with a quote and newline in
its content) round-trip exactly; a concrete injected-newline file still
loads three records. -/
theorem jsonl_log_round_trip_witness :
    (∀ r ∈ ([⟨"user", "hi \"there\"\nok", "t1"⟩,
        ⟨"assistant", "fine", "t2"⟩] : List LogRecord), r.timestamp ≠ "")
    ∧ (load_conversation_log ⟨1000, none, 5, none, []⟩
        (encodeLog [⟨"user", "hi \"there\"\nok", "t1"⟩,
          ⟨"assistant", "fine", "t2"⟩]) "NOW").state.conversation_history =
      [⟨"user", "hi \"there\"\nok", some "t1"⟩, ⟨"assistant", "fine", some "t2"⟩]
    ∧ (load_conversation_log ⟨1000, none, 5, none, []⟩
        (encodeLog [⟨"user", "hi \"there\"\nok", "t1"⟩,
          ⟨"assistant", "fine", "t2"⟩]) "NOW").skipped_count = 0
    ∧ (load_conversation_log ⟨1000, none, 5, none, []⟩
        (encodeLog [⟨"user", "a", "t1"⟩] ++
          ((encodeEntryInjected "user" "x" "y" "t9") ++ ['\n']) ++
          encodeLog [⟨"assistant", "b", "t2"⟩])
        "NOW").state.conversation_history.length = 3 := by
  have h := jsonl_log_round_trip
    [⟨"user", "hi \"there\"\nok", "t1"⟩, ⟨"assistant", "fine", "t2"⟩]
    ⟨1000, none, 5, none, []⟩ "NOW"
  have hts : ∀ r ∈ ([⟨"user", "hi \"there\"\nok", "t1"⟩,
      ⟨"assistant", "fine", "t2"⟩] : List LogRecord), r.timestamp ≠ "" := by
    decide
  refine ⟨hts, ?_, h.1.2.2, ?_⟩
  · rw [h.1.1, h.2.1 hts]
    rfl
  · have h2 := jsonl_log_round_trip [⟨"user", "a", "t1"⟩]
      ⟨1000, none, 5, none, []⟩ "NOW"
    rw [(h2.2.2 [⟨"user", "a", "t1"⟩] [⟨"assistant", "b", "t2"⟩]
      "user" "x" "y" "t9" : _)]
    rfl

theorem load_fold_filterMap (chunks : List (List Char)) (now : String)
    (m : SessionMemoryManager) (l s : Nat) :
    List.foldl (loadChunkStep now) (m, l, s) chunks =
      ({ m with conversation_history := m.conversation_history ++
          chunks.filterMap (decodeChunk now) },
        l + (chunks.filterMap (decodeChunk now)).length,
        s + (chunks.length - (chunks.filterMap (decodeChunk now)).length)) := by
  induction chunks generalizing m l s with
  | nil => cases m; simp
  | cons c cs ih =>
    simp only [List.foldl_cons, List.filterMap_cons, List.length_cons]
    cases hdec : json_loads_record (sanitizeChunk c) with
    | none =>
      have hstep : loadChunkStep now (m, l, s) c = (m, l, s + 1) := by
        unfold loadChunkStep
        rw [hdec]
      have hd : decodeChunk now c = none := by
        unfold decodeChunk
        rw [hdec]
      rw [hstep, hd, ih]
      have hle : (cs.filterMap (decodeChunk now)).length ≤ cs.length :=
        List.length_filterMap_le _ _
      simp only [Prod.mk.injEq, List.length_cons, true_and]
      omega
    | some d =>
      have hstep : loadChunkStep now (m, l, s) c =
          ({ m with conversation_history := m.conversation_history ++
              [⟨(dictGet d "role").getD "user", (dictGet d "content").getD "",
                some (pyOrStr (dictGet d "timestamp") now)⟩] }, l + 1, s) := by
        unfold loadChunkStep
        rw [hdec]
        simp [add_message]
      have hd : decodeChunk now c = some ⟨(dictGet d "role").getD "user",
          (dictGet d "content").getD "",
          some (pyOrStr (dictGet d "timestamp") now)⟩ := by
        unfold decodeChunk
        rw [hdec]
      rw [hstep, hd, ih]
      have hle : (cs.filterMap (decodeChunk now)).length ≤ cs.length :=
        List.length_filterMap_le _ _
      simp only [Prod.mk.injEq, List.length_cons, List.append_assoc,
        List.singleton_append, true_and]
      omega

theorem scanStep_chunks_pre (st : ScanState) (c : Char)
    (pre : List (List Char)) :
    scanStep { st with chunks := pre ++ st.chunks } c =
      { scanStep st c with chunks := pre ++ (scanStep st c).chunks } := by
  cases st
  unfold scanStep
  dsimp only
  split_ifs <;> simp [List.append_assoc]

theorem scan_chunks_shift (text : List Char) (st : ScanState)
    (pre : List (List Char)) :
    List.foldl scanStep { st with chunks := pre ++ st.chunks } text =
      { List.foldl scanStep st text with
        chunks := pre ++ (List.foldl scanStep st text).chunks } := by
  induction text generalizing st pre with
  | nil => cases st; simp
  | cons c cs ih =>
    rw [List.foldl_cons, List.foldl_cons, scanStep_chunks_pre st c pre]
    exact ih (scanStep st c) pre

/-- C9 amended: parser fault tolerance.  (1) For a transcript of valid
logged records followed by any trailing content that never completes a
candidate span (e.g. a truncated record with unbalanced braces), all
valid records are returned in order and the unbalanced-braces warning is
observable exactly when the trailing scan ends at non-zero depth; a
truncated record earlier in the transcript instead swallows the rest of
the input into its unterminated span, so only the records before it are
returned.  (2) For any transcript: every captured span that fails to
JSON-decode is skipped (counted by a recoverable warning) while parsing
continues with the next candidate, everything successfully decoded is
loaded, and loading zero valid records is reported as the distinct
nothing-loaded condition. -/
theorem load_conversation_log_eq (m : SessionMemoryManager) (text : List Char)
    (now : String) :
    load_conversation_log m text now =
      ⟨(List.foldl (loadChunkStep now) (m, 0, 0) (scanText text).chunks).1,
        decide ((scanText text).depth ≠ 0),
        (List.foldl (loadChunkStep now) (m, 0, 0) (scanText text).chunks).2.2,
        decide ((List.foldl (loadChunkStep now) (m, 0, 0)
          (scanText text).chunks).2.1 = 0)⟩ := rfl

theorem parser_fault_tolerance (m : SessionMemoryManager) (now : String)
    (records : List LogRecord) (t : List Char)
    (ht : (scanText t).chunks = []) :
    ((load_conversation_log m (encodeLog records ++ t) now).state.conversation_history =
        m.conversation_history ++ records.map (fun r => loggedMessage r now)
      ∧ (load_conversation_log m (encodeLog records ++ t) now).unbalanced_warning =
          decide ((scanText t).depth ≠ 0))
    ∧ (∀ text : List Char,
        (load_conversation_log m text now).state.conversation_history =
          m.conversation_history ++
            ((scanText text).chunks.filterMap (decodeChunk now))
        ∧ (load_conversation_log m text now).skipped_count =
            (scanText text).chunks.length -
              ((scanText text).chunks.filterMap (decodeChunk now)).length
        ∧ ((load_conversation_log m text now).nothing_loaded_warning = true ↔
            (scanText text).chunks.filterMap (decodeChunk now) = [])) := by
  constructor
  · have hscan : scanText (encodeLog records ++ t) =
        { scanText t with chunks := records.map encodeEntry ++ (scanText t).chunks } := by
      unfold scanText
      rw [List.foldl_append]
      rw [show List.foldl scanStep scanInit (encodeLog records) =
          { scanInit with chunks := scanInit.chunks ++ records.map encodeEntry } from
        scan_encodeLog records scanInit rfl rfl rfl rfl]
      rw [show ({ scanInit with chunks := scanInit.chunks ++ records.map encodeEntry } : ScanState) =
          { scanInit with chunks := records.map encodeEntry ++ scanInit.chunks } from by
        simp [scanInit]]
      exact scan_chunks_shift t scanInit (records.map encodeEntry)
    rw [load_conversation_log_eq, hscan, ht]
    simp only [List.append_nil]
    rw [show List.foldl (loadChunkStep now) (m, 0, 0) (records.map encodeEntry) =
        ({ m with conversation_history := m.conversation_history ++
            records.map (fun r => loggedMessage r now) }, 0 + records.length, 0) from
      load_fold_entries records now m 0 0]
    exact ⟨rfl, trivial⟩
  · intro text
    rw [load_conversation_log_eq]
    rw [show List.foldl (loadChunkStep now) (m, 0, 0) ((scanText text).chunks) =
        ({ m with conversation_history := m.conversation_history ++
            (scanText text).chunks.filterMap (decodeChunk now) },
          0 + ((scanText text).chunks.filterMap (decodeChunk now)).length,
          0 + ((scanText text).chunks.length -
            ((scanText text).chunks.filterMap (decodeChunk now)).length)) from
      load_fold_filterMap (scanText text).chunks now m 0 0]
    dsimp only
    refine ⟨rfl, by omega, ?_⟩
    simp only [decide_eq_true_iff]
    constructor
    · intro h0
      have : ((scanText text).chunks.filterMap (decodeChunk now)).length = 0 := by
        omega
      exact List.length_eq_zero.mp this
    · intro h0
      rw [h0]
      rfl

set_option maxRecDepth 8192 in
/-- C9 counterexample: with the truncated record amid (between) the two
valid records, only the first valid record is returned — the unbalanced
span swallows the second one — so "both valid records are still
returned" fails, even though the warning is observable. -/
theorem parser_truncated_mid_counterexample :
    (load_conversation_log ⟨1000, none, 5, none, []⟩ truncatedMidTranscript
        "NOW").state.conversation_history = [⟨"user", "first", some "t1"⟩]
    ∧ (load_conversation_log ⟨1000, none, 5, none, []⟩ truncatedMidTranscript
        "NOW").state.conversation_history.length ≠ 2
    ∧ (load_conversation_log ⟨1000, none, 5, none, []⟩ truncatedMidTranscript
        "NOW").unbalanced_warning = true := by
  have h1 : (load_conversation_log ⟨1000, none, 5, none, []⟩ truncatedMidTranscript
      "NOW").state.conversation_history = [⟨"user", "first", some "t1"⟩] := by rfl
  refine ⟨h1, ?_, by rfl⟩
  rw [h1]
  simp

set_option maxRecDepth 8192 in
/-- C9 witness: with the truncation after the two valid records, both
are returned in order and the warning is observable. -/
theorem parser_fault_tolerance_witness :
    (scanText truncatedSpan).chunks = []
    ∧ (load_conversation_log ⟨1000, none, 5, none, []⟩
        (encodeLog [validA, validB] ++ truncatedSpan)
        "NOW").state.conversation_history =
      [⟨"user", "first", some "t1"⟩, ⟨"assistant", "second", some "t2"⟩]
    ∧ (load_conversation_log ⟨1000, none, 5, none, []⟩
        (encodeLog [validA, validB] ++ truncatedSpan)
        "NOW").unbalanced_warning = true := by
  have hchunks : (scanText truncatedSpan).chunks = [] := by rfl
  have h := parser_fault_tolerance ⟨1000, none, 5, none, []⟩ "NOW"
    [validA, validB] truncatedSpan hchunks
  refine ⟨hchunks, ?_, ?_⟩
  · rw [h.1.1]
    rfl
  · rw [h.1.2]
    rfl
